import Mathlib

/-!
Shallow embedding of the region-aware pixel recoloring engine of the
game-design toolkit (PaletteGenerator domain): color-space conversion
(ImageProcessor.rgbToHsl / hslToRgb), dominant-color extraction, global HSL
adjustment, multi-region mask generation and compositing
(MultiRegionImageProcessor) and the single sampled-color replacement path
(ColorReplacementProcessor).

Numeric modelling: JavaScript numbers are modelled exactly.  The color
conversions are pure rational arithmetic and are embedded generically over a
linear ordered field (instantiated at ℚ where everything is computable, and
at ℝ where the surrounding code mixes in square roots, exponentials and
trigonometry).  Typed-array stores (Uint8ClampedArray) are modelled by
clamping to 0..255; Float32Array round-off is not modelled (mask values are
exact reals).
-/

section JsPrimitives

variable {K : Type} [LinearOrderedField K] [FloorRing K]

/-- JavaScript Math.round: round half toward positive infinity. -/
def jsRound (x : K) : ℤ := ⌊x + 1/2⌋

/-- JavaScript truncation toward zero, as used by the % operator. -/
def jsTrunc (x : K) : ℤ := if 0 ≤ x then ⌊x⌋ else -⌊-x⌋

/-- JavaScript remainder a % b = a - b * trunc (a / b) (for finite b ≠ 0). -/
def jsMod (a b : K) : K := a - b * jsTrunc (a / b)

/-- Storing an integer into a Uint8ClampedArray slot clamps it to 0..255. -/
def clampByte (z : ℤ) : Fin 256 :=
  if h : z < 0 then ⟨0, by omega⟩
  else if h2 : 255 < z then ⟨255, by omega⟩
  else ⟨z.toNat, by omega⟩

end JsPrimitives

section ColorConversion

variable {K : Type} [LinearOrderedField K] [FloorRing K]

/-- The hue2rgb helper closure of ImageProcessor.hslToRgb (HarmonyAnalyzer.ts).
Arguments p q t as in the source; the two leading ifs normalize t into [0,1]. -/
def hue2rgb (p q t : K) : K :=
  let t1 := if t < 0 then t + 1 else t
  let t2 := if t1 > 1 then t1 - 1 else t1
  if t2 < 1/6 then p + (q - p) * 6 * t2
  else if t2 < 1/2 then q
  else if t2 < 2/3 then p + (q - p) * (2/3 - t2) * 6
  else p

/-- ImageProcessor.rgbToHsl (HarmonyAnalyzer.ts): r,g,b in 0..255 to
(h, s, l) with h in 0..360, s and l in 0..100.  The JS switch on max picks
the first branch whose channel equals the maximum. -/
def rgbToHsl (r g b : K) : K × K × K :=
  let r' := r / 255
  let g' := g / 255
  let b' := b / 255
  let mx := max r' (max g' b')
  let mn := min r' (min g' b')
  let l := (mx + mn) / 2
  if mx = mn then (0, 0, l * 100)
  else
    let d := mx - mn
    let s := if l > 1/2 then d / (2 - mx - mn) else d / (mx + mn)
    let h :=
      if mx = r' then ((g' - b') / d + (if g' < b' then (6 : K) else 0)) / 6
      else if mx = g' then ((b' - r') / d + 2) / 6
      else ((r' - g') / d + 4) / 6
    (h * 360, s * 100, l * 100)

/-- ImageProcessor.hslToRgb (HarmonyAnalyzer.ts): h in 0..360, s,l in 0..100
to rounded r,g,b (the caller stores them into a Uint8ClampedArray). -/
def hslToRgb (h s l : K) : ℤ × ℤ × ℤ :=
  let h' := h / 360
  let s' := s / 100
  let l' := l / 100
  if s' = 0 then (jsRound (l' * 255), jsRound (l' * 255), jsRound (l' * 255))
  else
    let q := if l' < 1/2 then l' * (1 + s') else l' + s' - l' * s'
    let p := 2 * l' - q
    (jsRound (hue2rgb p q (h' + 1/3) * 255),
     jsRound (hue2rgb p q h' * 255),
     jsRound (hue2rgb p q (h' - 1/3) * 255))

end ColorConversion

section DataModel

/-- One RGBA sample of an ImageData buffer (Uint8ClampedArray entries). -/
structure Pixel where
  r : Fin 256
  g : Fin 256
  b : Fin 256
  a : Fin 256
  deriving DecidableEq

/-- An ImageData value: width, height and the row-major RGBA samples,
grouped four bytes to a pixel. -/
structure ImageData where
  width : ℕ
  height : ℕ
  data : List Pixel
  deriving DecidableEq

/-- Value of one hexadecimal digit (the character class [a-f\d], either case). -/
def hexDigitVal (c : Char) : Option ℕ :=
  if '0' ≤ c ∧ c ≤ '9' then some (c.toNat - '0'.toNat)
  else if 'a' ≤ c ∧ c ≤ 'f' then some (c.toNat - 'a'.toNat + 10)
  else if 'A' ≤ c ∧ c ≤ 'F' then some (c.toNat - 'A'.toNat + 10)
  else none

/-- The private hexToRgb helper shared (verbatim) by MultiRegionImageProcessor
and ColorReplacementProcessor: an optional leading #, then exactly six hex
digits; anything else falls back to mid-gray (128,128,128). -/
def hexToRgb (hex : String) : ℕ × ℕ × ℕ :=
  let cs0 := hex.toList
  let cs := if cs0.head? = some '#' then cs0.tail else cs0
  match cs with
  | [c1, c2, c3, c4, c5, c6] =>
    match hexDigitVal c1, hexDigitVal c2, hexDigitVal c3,
          hexDigitVal c4, hexDigitVal c5, hexDigitVal c6 with
    | some v1, some v2, some v3, some v4, some v5, some v6 =>
      (16 * v1 + v2, 16 * v3 + v4, 16 * v5 + v6)
    | _, _, _, _, _, _ => (128, 128, 128)
  | _ => (128, 128, 128)

end DataModel

namespace ImageProcessor

/-- The strided sampling loop `for (i = 0; i < data.length; i += 4*n)`:
keeps every n-th pixel, starting at pixel 0. -/
def sampleEveryNth (n : ℕ) (l : List Pixel) : List Pixel :=
  (l.enum.filter (fun p => p.1 % n = 0)).map Prod.snd

/-- ImageProcessor.getDominantColor: average r,g,b over every 10th pixel
whose alpha is strictly greater than 128 (the source tests a > 128), rounded
per channel; mid-gray (128,128,128) if no pixel qualifies. -/
def getDominantColor (img : ImageData) : ℤ × ℤ × ℤ :=
  let sampled := sampleEveryNth 10 img.data
  let kept := sampled.filter (fun px => 128 < px.a.val)
  let pixelCount := kept.length
  if pixelCount = 0 then (128, 128, 128)
  else
    let totalR : ℚ := (kept.map (fun px => (px.r.val : ℚ))).sum
    let totalG : ℚ := (kept.map (fun px => (px.g.val : ℚ))).sum
    let totalB : ℚ := (kept.map (fun px => (px.b.val : ℚ))).sum
    (jsRound (totalR / pixelCount), jsRound (totalG / pixelCount),
     jsRound (totalB / pixelCount))

/-- ImageProcessor.applyHslAdjustment: global recoloring toward targetRgb.
Shifts are derived from the dominant color; hue shift is additive mod 360,
saturation multiplicative (ratio 1 when the dominant saturation is 0),
lightness additive; alpha is copied through. -/
def applyHslAdjustment (img : ImageData) (targetRgb : ℤ × ℤ × ℤ) : ImageData :=
  let dominantRgb := getDominantColor img
  let dHsl := rgbToHsl (dominantRgb.1 : ℚ) (dominantRgb.2.1 : ℚ) (dominantRgb.2.2 : ℚ)
  let tHsl := rgbToHsl (targetRgb.1 : ℚ) (targetRgb.2.1 : ℚ) (targetRgb.2.2 : ℚ)
  let hueShift := tHsl.1 - dHsl.1
  let saturationRatio := if dHsl.2.1 > 0 then tHsl.2.1 / dHsl.2.1 else 1
  let lightnessShift := tHsl.2.2 - dHsl.2.2
  { width := img.width, height := img.height,
    data := img.data.map (fun px =>
      let hsl := rgbToHsl (px.r.val : ℚ) (px.g.val : ℚ) (px.b.val : ℚ)
      let newH := jsMod (hsl.1 + hueShift + 360) 360
      let newS := max 0 (min 100 (hsl.2.1 * saturationRatio))
      let newL := max 0 (min 100 (hsl.2.2 + lightnessShift))
      let rgb := hslToRgb newH newS newL
      { r := clampByte rgb.1, g := clampByte rgb.2.1, b := clampByte rgb.2.2,
        a := px.a }) }

end ImageProcessor

section RealHelpers

/-- JavaScript Math.atan2(y, x): quadrant-aware arctangent. -/
noncomputable def jsAtan2 (y x : ℝ) : ℝ :=
  if 0 < x then Real.arctan (y / x)
  else if x < 0 then
    (if 0 ≤ y then Real.arctan (y / x) + Real.pi else Real.arctan (y / x) - Real.pi)
  else
    (if 0 < y then Real.pi / 2 else if y < 0 then -(Real.pi / 2) else 0)

end RealHelpers

/-- A detected color region (MultiRegionImageProcessor.ts).  targetColor is a
hex string or null, modelled as an Option. -/
structure ColorRegion where
  id : String
  name : String
  centroidHsl : ℝ × ℝ × ℝ
  targetColor : Option String
  pixelCount : ℕ

/-- Internal HSL pixel representation used by the region detector. -/
structure PixelHsl where
  h : ℝ
  s : ℝ
  l : ℝ
  index : ℕ

/-- The (h, s, l) triple of a PixelHsl. -/
def PixelHsl.hsl (p : PixelHsl) : ℝ × ℝ × ℝ := (p.h, p.s, p.l)

instance : Inhabited PixelHsl := ⟨⟨0, 0, 0, 0⟩⟩

namespace MultiRegionImageProcessor

/-- MultiRegionImageProcessor.hslDistance: weighted Euclidean distance in HSL
space; circular hue difference, hue de-weighted by average saturation. -/
noncomputable def hslDistance (a b : ℝ × ℝ × ℝ) : ℝ :=
  let hueDiff0 := |a.1 - b.1|
  let hueDiff := if hueDiff0 > 180 then 360 - hueDiff0 else hueDiff0
  let avgSat := (a.2.1 + b.2.1) / 2
  let hueWeight := avgSat / 100
  let satDiff := |a.2.1 - b.2.1|
  let lightDiff := |a.2.2 - b.2.2|
  Real.sqrt ((hueDiff * hueWeight) ^ 2 + satDiff ^ 2 + lightDiff ^ 2)

/-- samplePixelsAsHsl: every 4th pixel (step 16 bytes), skipping pixels with
alpha < 128, converted to HSL and tagged with its pixel index. -/
noncomputable def samplePixelsAsHsl (img : ImageData) : List PixelHsl :=
  (img.data.enum.filter (fun p => p.1 % 4 = 0)).filterMap (fun p =>
    if p.2.a.val < 128 then none
    else
      let hsl := rgbToHsl (p.2.r.val : ℝ) (p.2.g.val : ℝ) (p.2.b.val : ℝ)
      some ⟨hsl.1, hsl.2.1, hsl.2.2, p.1⟩)

/-- Minimum distance from pixel p to any of the given centroids (the JS loop
starts from Infinity; the list is nonempty in every use). -/
noncomputable def distToNearestCentroid (p : PixelHsl) (cents : List PixelHsl) : ℝ :=
  match cents with
  | [] => 0
  | c :: cs => cs.foldl (fun m c2 => min m (hslDistance p.hsl c2.hsl)) (hslDistance p.hsl c.hsl)

/-- The inner scan of initializeCentroids: the sampled pixel farthest (by
minimum distance) from the existing centroids; ties keep the earlier pixel,
and the scan starts from maxDist = -1 with pixels[0] as fallback. -/
noncomputable def farthestPixel (pixels : List PixelHsl) (cents : List PixelHsl) : PixelHsl :=
  (pixels.foldl (fun (acc : ℝ × PixelHsl) px =>
      let m := distToNearestCentroid px cents
      if acc.1 < m then (m, px) else acc)
    (-1, pixels.headD default)).2

/-- initializeCentroids: first centroid drawn with the random source, the
rest by the farthest-point heuristic.  rand is the injected model of
Math.random (values in [0,1)); ctr is the call counter.  Returns the
centroids and the next counter value. -/
noncomputable def initializeCentroids (pixels : List PixelHsl) (k : ℕ)
    (rand : ℕ → ℚ) (ctr : ℕ) : List PixelHsl × ℕ :=
  if pixels.length = 0 then ([], ctr)
  else
    let firstIdx := (⌊rand ctr * pixels.length⌋).toNat
    let first := pixels.getD firstIdx default
    (((List.range (k - 1)).foldl
        (fun cents _ => cents ++ [farthestPixel pixels cents]) [first]), ctr + 1)

/-- Index of the nearest centroid (strict improvement, so ties keep the
earlier centroid; the JS loop starts from Infinity, which the first distance
always beats). -/
noncomputable def nearestCentroidIndex (p : PixelHsl) (cents : List PixelHsl) : ℕ :=
  match cents with
  | [] => 0
  | c :: cs =>
    ((cs.enum.map (fun ic => (ic.1 + 1, ic.2))).foldl
      (fun (acc : ℝ × ℕ) ic =>
        let d := hslDistance p.hsl ic.2.hsl
        if d < acc.1 then (d, ic.1) else acc)
      (hslDistance p.hsl c.hsl, 0)).2

/-- assignPixelsToCentroids: nearest-centroid index for every sampled pixel. -/
noncomputable def assignPixelsToCentroids (pixels : List PixelHsl)
    (cents : List PixelHsl) : List ℕ :=
  pixels.map (fun p => nearestCentroidIndex p cents)

/-- The pixels assigned to cluster j (the source accumulates sums in one pass
over the pixels; per-cluster sums over this sublist are the same values). -/
noncomputable def clusterMembers (pixels : List PixelHsl) (assignments : List ℕ)
    (j : ℕ) : List PixelHsl :=
  ((pixels.zip assignments).filter (fun pa => pa.2 = j)).map Prod.fst

/-- One output centroid of recalculateCentroids for a nonempty cluster:
circular mean of hue via sin/cos and atan2, arithmetic mean of s and l. -/
noncomputable def clusterCentroid (members : List PixelHsl) : PixelHsl :=
  let n : ℝ := members.length
  let hSin := (members.map (fun p => Real.sin (p.h * Real.pi / 180))).sum
  let hCos := (members.map (fun p => Real.cos (p.h * Real.pi / 180))).sum
  let avgHRad := jsAtan2 (hSin / n) (hCos / n)
  let avgH0 := avgHRad * 180 / Real.pi
  let avgH := if avgH0 < 0 then avgH0 + 360 else avgH0
  ⟨avgH, (members.map (fun p => p.s)).sum / n, (members.map (fun p => p.l)).sum / n, 0⟩

/-- recalculateCentroids, cluster by cluster (clusters in index order, as the
JS sums.map does); an empty cluster is reseeded with a random sampled pixel,
consuming one random draw. -/
noncomputable def recalcCentroidsGo (pixels : List PixelHsl) (assignments : List ℕ)
    (rand : ℕ → ℚ) : List ℕ → ℕ → List PixelHsl × ℕ
  | [], ctr => ([], ctr)
  | j :: js, ctr =>
    let members := clusterMembers pixels assignments j
    if members.length = 0 then
      let p := pixels.getD (⌊rand ctr * pixels.length⌋).toNat default
      let rest := recalcCentroidsGo pixels assignments rand js (ctr + 1)
      (p :: rest.1, rest.2)
    else
      let rest := recalcCentroidsGo pixels assignments rand js ctr
      (clusterCentroid members :: rest.1, rest.2)

/-- recalculateCentroids over clusters 0..k-1. -/
noncomputable def recalculateCentroids (pixels : List PixelHsl) (assignments : List ℕ)
    (k : ℕ) (rand : ℕ → ℚ) (ctr : ℕ) : List PixelHsl × ℕ :=
  recalcCentroidsGo pixels assignments rand (List.range k) ctr

open Classical in
/-- The capped k-means iteration of detectColorRegions: assign, recompute,
update, and stop early once no centroid moved by more than 1 distance unit
(the update happens before the convergence break, as in the source). -/
noncomputable def kmeansIterate (pixels : List PixelHsl) (k : ℕ) (rand : ℕ → ℚ) :
    ℕ → List PixelHsl → ℕ → List PixelHsl × ℕ
  | 0, cents, ctr => (cents, ctr)
  | fuel + 1, cents, ctr =>
    let assignments := assignPixelsToCentroids pixels cents
    let rec' := recalculateCentroids pixels assignments k rand ctr
    let newCents := rec'.1
    if ∀ pr ∈ cents.zip newCents, ¬ hslDistance pr.1.hsl pr.2.hsl > 1 then
      (newCents, rec'.2)
    else
      kmeansIterate pixels k rand fuel newCents rec'.2

open Classical in
/-- generateRegionName: saturation below 15 gives a gray family name bucketed
by lightness; otherwise a hue-bucketed family name with a Dark/Light prefix. -/
noncomputable def generateRegionName (c : PixelHsl) : String :=
  if c.s < 15 then
    if c.l < 30 then "Dark Gray"
    else if c.l > 70 then "Light Gray"
    else "Gray"
  else
    let colorName :=
      if c.h < 15 ∨ c.h ≥ 345 then "Red"
      else if c.h < 45 then "Orange"
      else if c.h < 75 then "Yellow"
      else if c.h < 150 then "Green"
      else if c.h < 195 then "Cyan"
      else if c.h < 255 then "Blue"
      else if c.h < 285 then "Purple"
      else "Magenta"
    if c.l < 30 then "Dark " ++ colorName
    else if c.l > 70 then "Light " ++ colorName
    else colorName

/-- detectColorRegions: sample, k-means with at most 10 iterations, final
reassignment to count pixels, auto-named regions sorted by pixel count
descending (stable sort, as Array.prototype.sort).  rand models the unseeded
Math.random source. -/
noncomputable def detectColorRegions (rand : ℕ → ℚ) (img : ImageData)
    (regionCount : ℕ) : List ColorRegion :=
  let pixels := samplePixelsAsHsl img
  if pixels.length = 0 then []
  else
    let init := initializeCentroids pixels regionCount rand 0
    let final := kmeansIterate pixels regionCount rand 10 init.1 init.2
    let centroids := final.1
    let assignments := assignPixelsToCentroids pixels centroids
    let counts := (List.range regionCount).map
      (fun j => (assignments.filter (fun x => x = j)).length)
    let regions := centroids.enum.map (fun ic =>
      { id := "region-" ++ toString ic.1
        name := generateRegionName ic.2
        centroidHsl := (ic.2.h, ic.2.s, ic.2.l)
        targetColor := none
        pixelCount := counts.getD ic.1 0 : ColorRegion })
    regions.mergeSort (fun a b => decide (b.pixelCount ≤ a.pixelCount))

end MultiRegionImageProcessor

namespace MultiRegionImageProcessor

/-- The running minimum the generateRegionMask loop keeps over a distances
list (JS starts from Infinity; an empty list, which JS never reduces, gives
0). -/
noncomputable def minDistOf (l : List (String × ℝ)) : ℝ :=
  match l with
  | [] => 0
  | d :: ds => ds.foldl (fun m c => min m c.2) d.2

/-- The Array.reduce of generateRegionMask's hard mode: the first
distance-minimal entry (ties keep the earlier element; JS throws on an empty
array, modelled by a dummy entry). -/
noncomputable def reduceClosest (l : List (String × ℝ)) : String × ℝ :=
  match l with
  | [] => ("", 0)
  | d :: ds => ds.foldl (fun m c => if c.2 < m.2 then c else m) d

open Classical in
/-- The per-pixel body of generateRegionMask.  The mask array entry for pixel
i is this function of the i-th pixel (the loop writes mask[i] from the pixel's
bytes alone).  Hard mode: 1 exactly when the first distance-minimal region's
id equals the target region's id (Array.reduce keeps the earlier element on
ties; reduce on an empty region list would throw in JS and is modelled as 0).
Soft mode: exponential falloff from the minimal distance, normalized; the
running regionWeight keeps the last matching entry, as the JS loop does. -/
noncomputable def maskWeight (region : ColorRegion) (allRegions : List ColorRegion)
    (sharpness : ℚ) (hardMask : Bool) (px : Pixel) : ℝ :=
  if px.a.val < 128 then 0
  else
    let hsl := rgbToHsl (px.r.val : ℝ) (px.g.val : ℝ) (px.b.val : ℝ)
    let distances := allRegions.map (fun o => (o.id, hslDistance hsl o.centroidHsl))
    if hardMask then
      if (reduceClosest distances).1 = region.id then 1 else 0
    else
      let falloffDivisor : ℝ := 50 + (1 - (sharpness : ℝ)) * 1950
      let minDist := minDistOf distances
      let tw := distances.foldl (fun (acc : ℝ × ℝ) c =>
          let relDist := c.2 - minDist
          let weight := Real.exp (-(relDist * relDist) / falloffDivisor)
          (acc.1 + weight, if c.1 = region.id then weight else acc.2)) (0, 0)
      if tw.1 > 0 then tw.2 / tw.1 else 0

/-- generateRegionMask: Float32Array of per-pixel weights, one entry per
pixel of the image. -/
noncomputable def generateRegionMask (img : ImageData) (region : ColorRegion)
    (allRegions : List ColorRegion) (sharpness : ℚ) (hardMask : Bool) : List ℝ :=
  img.data.map (maskWeight region allRegions sharpness hardMask)

/-- The precomputed per-region shift record of applyMultiRegionAdjustment. -/
structure RegionShift where
  hueShift : ℝ
  satRatio : ℝ
  lightShift : ℝ
  targetS : ℝ

/-- The shift applyMultiRegionAdjustment derives for one active region from
its target color and centroid. -/
noncomputable def regionShift (region : ColorRegion) : RegionShift :=
  let targetRgb := hexToRgb (region.targetColor.getD "")
  let tHsl := rgbToHsl (targetRgb.1 : ℝ) (targetRgb.2.1 : ℝ) (targetRgb.2.2 : ℝ)
  { hueShift := tHsl.1 - region.centroidHsl.1
    satRatio := if region.centroidHsl.2.1 > 0 then tHsl.2.1 / region.centroidHsl.2.1 else 1
    lightShift := tHsl.2.2 - region.centroidHsl.2.2
    targetS := tHsl.2.1 }

open Classical in
/-- applyMultiRegionAdjustment: if no region carries a target color, a copy of
the input is returned.  Otherwise masks are generated for every active region
(stored in a Map keyed by region id, so a later duplicate id overwrites an
earlier one, which the id-keyed lookup functions model), per-region HSL
shifts are applied per pixel with the low-saturation hue damping, candidates
are blended in RGB space by mask weight, and alpha is copied through. -/
noncomputable def applyMultiRegionAdjustment (img : ImageData)
    (regions : List ColorRegion) (sharpness : ℚ) (hardMask : Bool) : ImageData :=
  let activeRegions := regions.filter (fun r => r.targetColor.isSome)
  if activeRegions.length = 0 then
    { width := img.width, height := img.height, data := img.data }
  else
    let masks : String → List ℝ := activeRegions.foldl
      (fun f r => fun idd =>
        if idd = r.id then generateRegionMask img r regions sharpness hardMask else f idd)
      (fun _ => [])
    let shifts : String → RegionShift := activeRegions.foldl
      (fun f r => fun idd => if idd = r.id then regionShift r else f idd)
      (fun _ => ⟨0, 1, 0, 0⟩)
    { width := img.width, height := img.height,
      data := img.data.enum.map (fun ipx =>
        let i := ipx.1
        let px := ipx.2
        if px.a.val < 128 then px
        else
          let hsl := rgbToHsl (px.r.val : ℝ) (px.g.val : ℝ) (px.b.val : ℝ)
          let acc := activeRegions.foldl (fun (st : ℝ × ℝ × ℝ × ℝ) r =>
              let weight := (masks r.id).getD i 0
              if weight < 1/1000 then st
              else
                let shift := shifts r.id
                let targetSatWeight := min 1 (shift.targetS / 30)
                let originalSatWeight := min 1 (hsl.2.1 / 20)
                let hueShiftWeight := targetSatWeight * originalSatWeight
                let effectiveHueShift := shift.hueShift * hueShiftWeight
                let regionH := jsMod (hsl.1 + effectiveHueShift + 360) 360
                let regionS := max 0 (min 100 (hsl.2.1 * shift.satRatio))
                let regionL := max 0 (min 100 (hsl.2.2 + shift.lightShift))
                let rgb := hslToRgb regionH regionS regionL
                (st.1 + (rgb.1 : ℝ) * weight, st.2.1 + (rgb.2.1 : ℝ) * weight,
                 st.2.2.1 + (rgb.2.2 : ℝ) * weight, st.2.2.2 + weight))
            (0, 0, 0, 0)
          if acc.2.2.2 > 0 then
            { r := clampByte (jsRound (acc.1 / acc.2.2.2))
              g := clampByte (jsRound (acc.2.1 / acc.2.2.2))
              b := clampByte (jsRound (acc.2.2.1 / acc.2.2.2))
              a := px.a }
          else px) }

end MultiRegionImageProcessor

/-- A color replacement definition (ColorReplacementProcessor.ts).  The JS
truthiness test on targetColor treats the empty string like null. -/
structure ColorReplacement where
  id : String
  sourceColor : String
  targetColor : String
  tolerance : ℚ
  enabled : Bool

namespace ColorReplacementProcessor

/-- ColorReplacementProcessor.colorDistance: same weighted HSL metric as
MultiRegionImageProcessor.hslDistance, with six scalar arguments. -/
noncomputable def colorDistance (h1 s1 l1 h2 s2 l2 : ℝ) : ℝ :=
  let hueDiff0 := |h1 - h2|
  let hueDiff := if hueDiff0 > 180 then 360 - hueDiff0 else hueDiff0
  let avgSat := (s1 + s2) / 2
  let hueWeight := avgSat / 100
  let satDiff := |s1 - s2|
  let lightDiff := |l1 - l2|
  Real.sqrt ((hueDiff * hueWeight) ^ 2 + satDiff ^ 2 + lightDiff ^ 2)

open Classical in
/-- generateSelectionMask: per-pixel selection strength for a sampled source
color at a tolerance.  maxDistance = tolerance * 1.5; inside the tolerance the
strength is (1 - dist/maxDistance) ^ 0.5, outside it 0; transparent pixels
get 0. -/
noncomputable def generateSelectionMask (img : ImageData) (sourceColorHex : String)
    (tolerance : ℚ) : List ℝ :=
  let sourceRgb := hexToRgb sourceColorHex
  let sHsl := rgbToHsl (sourceRgb.1 : ℝ) (sourceRgb.2.1 : ℝ) (sourceRgb.2.2 : ℝ)
  let maxDistance : ℝ := (tolerance : ℝ) * 1.5
  img.data.map (fun px =>
    if px.a.val < 128 then 0
    else
      let hsl := rgbToHsl (px.r.val : ℝ) (px.g.val : ℝ) (px.b.val : ℝ)
      let distance := colorDistance hsl.1 hsl.2.1 hsl.2.2 sHsl.1 sHsl.2.1 sHsl.2.2
      if distance ≤ maxDistance then (1 - distance / maxDistance) ^ (0.5 : ℝ)
      else 0)

open Classical in
/-- calculateAverageSourceColor: weighted average HSL over the pixels matched
by the source color within tolerance; hue by weighted circular mean (weights
additionally scaled by saturation), s and l arithmetically weighted.  Falls
back to the sampled source HSL when nothing matches. -/
noncomputable def calculateAverageSourceColor (img : ImageData)
    (sourceColorHex : String) (tolerance : ℚ) : ℝ × ℝ × ℝ :=
  let sourceRgb := hexToRgb sourceColorHex
  let sHsl := rgbToHsl (sourceRgb.1 : ℝ) (sourceRgb.2.1 : ℝ) (sourceRgb.2.2 : ℝ)
  let maxDistance : ℝ := (tolerance : ℝ) * 1.5
  let entries := img.data.filterMap (fun px =>
    if px.a.val < 128 then none
    else
      let hsl := rgbToHsl (px.r.val : ℝ) (px.g.val : ℝ) (px.b.val : ℝ)
      let distance := colorDistance hsl.1 hsl.2.1 hsl.2.2 sHsl.1 sHsl.2.1 sHsl.2.2
      if distance ≤ maxDistance then some (hsl, 1 - distance / maxDistance)
      else none)
  let sinH := (entries.map (fun e => Real.sin (e.1.1 * Real.pi / 180) * e.2 * e.1.2.1)).sum
  let cosH := (entries.map (fun e => Real.cos (e.1.1 * Real.pi / 180) * e.2 * e.1.2.1)).sum
  let totalS := (entries.map (fun e => e.1.2.1 * e.2)).sum
  let totalL := (entries.map (fun e => e.1.2.2 * e.2)).sum
  let totalWeight := (entries.map (fun e => e.2)).sum
  if totalWeight = 0 then sHsl
  else
    let avgH0 := jsAtan2 sinH cosH * 180 / Real.pi
    let avgH := if avgH0 < 0 then avgH0 + 360 else avgH0
    (avgH, totalS / totalWeight, totalL / totalWeight)

/-- The precomputed record applyReplacements builds per active replacement. -/
structure ReplacementData where
  sourceH : ℝ
  sourceS : ℝ
  sourceL : ℝ
  targetH : ℝ
  targetS : ℝ
  targetL : ℝ
  hueShift : ℝ
  satRatio : ℝ
  lightShift : ℝ
  maxDistance : ℝ

/-- The per-replacement precomputation of applyReplacements: distances use
the sampled source color, shifts use the average of the selected pixels. -/
noncomputable def replacementData (img : ImageData) (r : ColorReplacement) :
    ReplacementData :=
  let avg := calculateAverageSourceColor img r.sourceColor r.tolerance
  let targetRgb := hexToRgb r.targetColor
  let tHsl := rgbToHsl (targetRgb.1 : ℝ) (targetRgb.2.1 : ℝ) (targetRgb.2.2 : ℝ)
  let sourceRgb := hexToRgb r.sourceColor
  let sHsl := rgbToHsl (sourceRgb.1 : ℝ) (sourceRgb.2.1 : ℝ) (sourceRgb.2.2 : ℝ)
  { sourceH := sHsl.1, sourceS := sHsl.2.1, sourceL := sHsl.2.2
    targetH := tHsl.1, targetS := tHsl.2.1, targetL := tHsl.2.2
    hueShift := tHsl.1 - avg.1
    satRatio := if avg.2.1 > 0 then tHsl.2.1 / avg.2.1 else 1
    lightShift := tHsl.2.2 - avg.2.2
    maxDistance := (r.tolerance : ℝ) * 1.5 }

open Classical in
/-- The per-pixel best-match scan of applyReplacements: winner-take-all over
the enabled replacements, by smallest distance within tolerance (the JS scan
starts from bestDistance = Infinity, modelled by the Option). -/
noncomputable def bestReplacement (rds : List ReplacementData) (h s l : ℝ) :
    Option ReplacementData × Option ℝ × ℝ :=
  rds.foldl (fun (acc : Option ReplacementData × Option ℝ × ℝ) rd =>
      let distance := colorDistance h s l rd.sourceH rd.sourceS rd.sourceL
      if distance ≤ rd.maxDistance ∧
          (match acc.2.1 with | none => True | some bd => distance < bd) then
        (some rd, some distance, 1 - distance / rd.maxDistance)
      else acc)
    (none, none, 0)

open Classical in
/-- applyReplacements: a copy of the input when no replacement is enabled
with a (truthy) target color; otherwise per-pixel winner-take-all recoloring
with low-saturation hue handling (s < 8 adopts the target hue, 8 <= s < 20
blends, else the full shift), edge blending by matchStrength ^ 0.7, alpha
copied through. -/
noncomputable def applyReplacements (img : ImageData)
    (replacements : List ColorReplacement) : ImageData :=
  let activeReplacements := replacements.filter
    (fun r => r.enabled ∧ r.targetColor ≠ "")
  if activeReplacements.length = 0 then
    { width := img.width, height := img.height, data := img.data }
  else
    let rds := activeReplacements.map (replacementData img)
    { width := img.width, height := img.height,
      data := img.data.map (fun px =>
        if px.a.val < 128 then px
        else
          let hsl := rgbToHsl (px.r.val : ℝ) (px.g.val : ℝ) (px.b.val : ℝ)
          let best := bestReplacement rds hsl.1 hsl.2.1 hsl.2.2
          match best.1 with
          | none => px
          | some rd =>
            let bestStrength := best.2.2
            if bestStrength > 0 then
              let s := hsl.2.1
              let newS := max 0 (min 100 (s * rd.satRatio))
              let newL := max 0 (min 100 (hsl.2.2 + rd.lightShift))
              let newH :=
                if s < 8 then rd.targetH
                else if s < 20 then
                  let blendFactor := (s - 8) / 12
                  let shiftedH := jsMod (hsl.1 + rd.hueShift + 360) 360
                  let hueDiff0 := shiftedH - rd.targetH
                  let hueDiff1 := if hueDiff0 > 180 then hueDiff0 - 360 else hueDiff0
                  let hueDiff := if hueDiff1 < -180 then hueDiff1 + 360 else hueDiff1
                  jsMod (rd.targetH + hueDiff * blendFactor + 360) 360
                else jsMod (hsl.1 + rd.hueShift + 360) 360
              let adj := hslToRgb newH newS newL
              let blend := bestStrength ^ (0.7 : ℝ)
              { r := clampByte (jsRound ((px.r.val : ℝ) + ((adj.1 : ℝ) - (px.r.val : ℝ)) * blend))
                g := clampByte (jsRound ((px.g.val : ℝ) + ((adj.2.1 : ℝ) - (px.g.val : ℝ)) * blend))
                b := clampByte (jsRound ((px.b.val : ℝ) + ((adj.2.2 : ℝ) - (px.b.val : ℝ)) * blend))
                a := px.a }
            else px) }

end ColorReplacementProcessor

/-! ### Round-trip properties of the color conversions -/

section RoundTripLemmas

variable {K : Type} [LinearOrderedField K] [FloorRing K]

theorem jsRound_intCast (m : ℤ) : jsRound (m : K) = m := by
  have h1 : ⌊(1/2 : K)⌋ = 0 := by
    rw [Int.floor_eq_zero_iff]
    constructor <;> norm_num
  unfold jsRound
  rw [Int.floor_int_add, h1, add_zero]

theorem jsRound_natCast (n : ℕ) : jsRound (n : K) = n := by
  have := jsRound_intCast (K := K) n
  simpa using this

omit [FloorRing K] in
/-- hue2rgb on [0, 1/6): the rising segment. -/
theorem hue2rgb_seg1 (p q t : K) (h0 : ¬ t < 0) (h1 : t < 1/6) :
    hue2rgb p q t = p + (q - p) * 6 * t := by
  simp only [hue2rgb]
  rw [if_neg h0, if_neg (by push_neg; linarith : ¬ t > 1), if_pos h1]

omit [FloorRing K] in
/-- hue2rgb on [1/6, 1/2): the flat q segment. -/
theorem hue2rgb_seg2 (p q t : K) (h0 : ¬ t < 1/6) (h1 : t < 1/2) :
    hue2rgb p q t = q := by
  simp only [hue2rgb]
  push_neg at h0
  rw [if_neg (by push_neg; linarith : ¬ t < 0),
    if_neg (by push_neg; linarith : ¬ t > 1),
    if_neg (by push_neg; linarith : ¬ t < 1/6), if_pos h1]

omit [FloorRing K] in
/-- hue2rgb on [1/2, 2/3): the falling segment. -/
theorem hue2rgb_seg3 (p q t : K) (h0 : ¬ t < 1/2) (h1 : t < 2/3) :
    hue2rgb p q t = p + (q - p) * (2/3 - t) * 6 := by
  simp only [hue2rgb]
  push_neg at h0
  rw [if_neg (by push_neg; linarith : ¬ t < 0),
    if_neg (by push_neg; linarith : ¬ t > 1),
    if_neg (by push_neg; linarith : ¬ t < 1/6),
    if_neg (by push_neg; linarith : ¬ t < 1/2), if_pos h1]

omit [FloorRing K] in
/-- hue2rgb on [2/3, 1]: the flat p segment. -/
theorem hue2rgb_seg4 (p q t : K) (h0 : ¬ t < 2/3) (h1 : t ≤ 1) :
    hue2rgb p q t = p := by
  simp only [hue2rgb]
  push_neg at h0
  rw [if_neg (by push_neg; linarith : ¬ t < 0),
    if_neg (by push_neg; linarith : ¬ t > 1),
    if_neg (by push_neg; linarith : ¬ t < 1/6),
    if_neg (by push_neg; linarith : ¬ t < 1/2),
    if_neg (by push_neg; linarith : ¬ t < 2/3)]

omit [FloorRing K] in
/-- The t < 0 normalization of hue2rgb adds 1. -/
theorem hue2rgb_up (p q t : K) (h : t < 0) (h2 : -1 ≤ t) :
    hue2rgb p q t = hue2rgb p q (t + 1) := by
  simp only [hue2rgb]
  rw [if_pos h, if_neg (by push_neg; linarith : ¬ t + 1 < 0),
    if_neg (by push_neg; linarith : ¬ t + 1 > 1)]

omit [FloorRing K] in
/-- The t > 1 normalization of hue2rgb subtracts 1. -/
theorem hue2rgb_down (p q t : K) (h : t > 1) (h2 : t ≤ 2) :
    hue2rgb p q t = hue2rgb p q (t - 1) := by
  simp only [hue2rgb]
  rw [if_neg (by push_neg; linarith : ¬ t < 0), if_pos h,
    if_neg (by push_neg; linarith : ¬ t - 1 < 0),
    if_neg (by push_neg; linarith : ¬ t - 1 > 1)]

end RoundTripLemmas

section InversionLemmas

variable {K : Type} [LinearOrderedField K]

/-- hue2rgb inversion, maximum = first channel, second at least third:
p = z, q = x, hue = u/6 with u = (y-z)/(x-z). -/
theorem hue2rgb_inv_rge (x y z u : K) (hyx : y ≤ x) (hzy : z ≤ y)
    (hu0 : 0 ≤ u) (hu1 : u ≤ 1) (hud : u * (x - z) = y - z) :
    hue2rgb z x (u/6 + 1/3) = x ∧ hue2rgb z x (u/6) = y ∧
      hue2rgb z x (u/6 - 1/3) = z := by
  refine ⟨?_, ?_, ?_⟩
  · by_cases hb : u/6 + 1/3 < 1/2
    · rw [hue2rgb_seg2 _ _ _ (by push_neg; linarith) hb]
    · rw [hue2rgb_seg3 _ _ _ hb (by linarith)]
      have hu_eq : u = 1 := le_antisymm hu1 (by linarith)
      rw [hu_eq]; ring
  · by_cases hb : u/6 < 1/6
    · rw [hue2rgb_seg1 _ _ _ (by push_neg; linarith) hb]
      linear_combination hud
    · rw [hue2rgb_seg2 _ _ _ hb (by linarith)]
      have hu_eq : u = 1 := le_antisymm hu1 (by linarith)
      rw [hu_eq] at hud; linarith
  · rw [hue2rgb_up _ _ _ (by linarith) (by linarith),
      hue2rgb_seg4 _ _ _ (by push_neg; linarith) (by linarith)]

/-- hue2rgb inversion, maximum = first channel, third above second:
p = y, q = x, hue = (u+6)/6 with u = (y-z)/(x-y). -/
theorem hue2rgb_inv_rlt (x y z u : K) (hzx : z ≤ x) (hyz : y < z)
    (hu0 : -1 ≤ u) (hu1 : u < 0) (hud : u * (x - y) = y - z) :
    hue2rgb y x ((u + 6)/6 + 1/3) = x ∧ hue2rgb y x ((u + 6)/6) = y ∧
      hue2rgb y x ((u + 6)/6 - 1/3) = z := by
  refine ⟨?_, ?_, ?_⟩
  · rw [hue2rgb_down _ _ _ (by linarith) (by linarith),
      hue2rgb_seg2 _ _ _ (by push_neg; linarith) (by linarith)]
  · rw [hue2rgb_seg4 _ _ _ (by push_neg; linarith) (by linarith)]
  · rw [hue2rgb_seg3 _ _ _ (by push_neg; linarith) (by linarith)]
    linear_combination -hud

/-- hue2rgb inversion, maximum = second channel, first at most third:
p = x, q = y, hue = (u+2)/6 with u = (z-x)/(y-x). -/
theorem hue2rgb_inv_gge (x y z u : K) (hzy : z ≤ y) (hxz : x ≤ z)
    (hu0 : 0 ≤ u) (hu1 : u ≤ 1) (hud : u * (y - x) = z - x) :
    hue2rgb x y ((u + 2)/6 + 1/3) = x ∧ hue2rgb x y ((u + 2)/6) = y ∧
      hue2rgb x y ((u + 2)/6 - 1/3) = z := by
  refine ⟨?_, ?_, ?_⟩
  · rw [hue2rgb_seg4 _ _ _ (by push_neg; linarith) (by linarith)]
  · by_cases hb : (u + 2)/6 < 1/2
    · rw [hue2rgb_seg2 _ _ _ (by push_neg; linarith) hb]
    · rw [hue2rgb_seg3 _ _ _ hb (by linarith)]
      have hu_eq : u = 1 := le_antisymm hu1 (by linarith)
      rw [hu_eq]; ring
  · by_cases hb : (u + 2)/6 - 1/3 < 1/6
    · rw [hue2rgb_seg1 _ _ _ (by push_neg; linarith) hb]
      linear_combination hud
    · rw [hue2rgb_seg2 _ _ _ hb (by linarith)]
      have hu_eq : u = 1 := le_antisymm hu1 (by linarith)
      rw [hu_eq] at hud; linarith

/-- hue2rgb inversion, maximum = second channel, third below first:
p = z, q = y, hue = (u+2)/6 with u = (z-x)/(y-z). -/
theorem hue2rgb_inv_glt (x y z u : K)
    (hu0 : -1 < u) (hu1 : u < 0) (hud : u * (y - z) = z - x) :
    hue2rgb z y ((u + 2)/6 + 1/3) = x ∧ hue2rgb z y ((u + 2)/6) = y ∧
      hue2rgb z y ((u + 2)/6 - 1/3) = z := by
  refine ⟨?_, ?_, ?_⟩
  · rw [hue2rgb_seg3 _ _ _ (by push_neg; linarith) (by linarith)]
    linear_combination -hud
  · rw [hue2rgb_seg2 _ _ _ (by push_neg; linarith) (by linarith)]
  · rw [hue2rgb_up _ _ _ (by linarith) (by linarith),
      hue2rgb_seg4 _ _ _ (by push_neg; linarith) (by linarith)]

/-- hue2rgb inversion, maximum = third channel, second at most first:
p = y, q = z, hue = (u+4)/6 with u = (x-y)/(z-y). -/
theorem hue2rgb_inv_bge (x y z u : K)
    (hu0 : 0 ≤ u) (hu1 : u < 1) (hud : u * (z - y) = x - y) :
    hue2rgb y z ((u + 4)/6 + 1/3) = x ∧ hue2rgb y z ((u + 4)/6) = y ∧
      hue2rgb y z ((u + 4)/6 - 1/3) = z := by
  refine ⟨?_, ?_, ?_⟩
  · by_cases hb : (u + 4)/6 + 1/3 > 1
    · rw [hue2rgb_down _ _ _ hb (by linarith),
        hue2rgb_seg1 _ _ _ (by push_neg; linarith) (by linarith)]
      linear_combination hud
    · have hu_eq : u = 0 := le_antisymm (by push_neg at hb; linarith) hu0
      rw [hu_eq] at hud ⊢
      rw [hue2rgb_seg4 _ _ _ (by norm_num) (by norm_num)]
      linarith
  · rw [hue2rgb_seg4 _ _ _ (by push_neg; linarith) (by linarith)]
  · rw [hue2rgb_seg2 _ _ _ (by push_neg; linarith) (by linarith)]

/-- hue2rgb inversion, maximum = third channel, first below second:
p = x, q = z, hue = (u+4)/6 with u = (x-y)/(z-x). -/
theorem hue2rgb_inv_blt (x y z u : K)
    (hu0 : -1 < u) (hu1 : u < 0) (hud : u * (z - x) = x - y) :
    hue2rgb x z ((u + 4)/6 + 1/3) = x ∧ hue2rgb x z ((u + 4)/6) = y ∧
      hue2rgb x z ((u + 4)/6 - 1/3) = z := by
  refine ⟨?_, ?_, ?_⟩
  · rw [hue2rgb_seg4 _ _ _ (by push_neg; linarith) (by linarith)]
  · rw [hue2rgb_seg3 _ _ _ (by push_neg; linarith) (by linarith)]
    linear_combination -hud
  · rw [hue2rgb_seg2 _ _ _ (by push_neg; linarith) (by linarith)]

end InversionLemmas

section RoundTripMain

variable {K : Type} [LinearOrderedField K] [FloorRing K]

set_option maxHeartbeats 1000000 in
/-- Converting an RGB triple to HSL and back reproduces the rounded input
exactly (exact rational/real arithmetic; the source's floating point matches
it up to the documented ±1). -/
theorem hslToRgb_rgbToHsl (r g b : K) (h0r : 0 ≤ r) (hr : r ≤ 255)
    (h0g : 0 ≤ g) (hg : g ≤ 255) (h0b : 0 ≤ b) (hb : b ≤ 255) :
    hslToRgb (rgbToHsl r g b).1 (rgbToHsl r g b).2.1 (rgbToHsl r g b).2.2
      = (jsRound r, jsRound g, jsRound b) := by
  simp only [rgbToHsl]
  set X := r / 255 with hX
  set Y := g / 255 with hY
  set Z := b / 255 with hZ
  have hX0 : 0 ≤ X := div_nonneg h0r (by norm_num)
  have hY0 : 0 ≤ Y := div_nonneg h0g (by norm_num)
  have hZ0 : 0 ≤ Z := div_nonneg h0b (by norm_num)
  have hX1 : X ≤ 1 := by rw [hX, div_le_one (by norm_num : (0:K) < 255)]; exact hr
  have hY1 : Y ≤ 1 := by rw [hY, div_le_one (by norm_num : (0:K) < 255)]; exact hg
  have hZ1 : Z ≤ 1 := by rw [hZ, div_le_one (by norm_num : (0:K) < 255)]; exact hb
  have hXr : X * 255 = r := by rw [hX]; field_simp
  have hYr : Y * 255 = g := by rw [hY]; field_simp
  have hZr : Z * 255 = b := by rw [hZ]; field_simp
  set M := max X (max Y Z) with hM
  set N := min X (min Y Z) with hN
  have hXM : X ≤ M := le_max_left _ _
  have hYM : Y ≤ M := le_max_of_le_right (le_max_left _ _)
  have hZM : Z ≤ M := le_max_of_le_right (le_max_right _ _)
  have hNX : N ≤ X := min_le_left _ _
  have hNY : N ≤ Y := le_trans (min_le_right _ _) (min_le_left _ _)
  have hNZ : N ≤ Z := le_trans (min_le_right _ _) (min_le_right _ _)
  have hM1 : M ≤ 1 := max_le hX1 (max_le hY1 hZ1)
  have hN0 : 0 ≤ N := le_min hX0 (le_min hY0 hZ0)
  by_cases hc : M = N
  · -- achromatic: all channels equal
    rw [if_pos hc]
    have hXM' : X = M := le_antisymm hXM (by rw [hc]; exact hNX)
    have hYM' : Y = M := le_antisymm hYM (by rw [hc]; exact hNY)
    have hZM' : Z = M := le_antisymm hZM (by rw [hc]; exact hNZ)
    have hrg : r = g := by rw [← hXr, ← hYr, hXM', hYM']
    have hrb : r = b := by rw [← hXr, ← hZr, hXM', hZM']
    have hXN : X = N := hXM'.trans hc
    dsimp only
    simp only [hslToRgb, zero_div, if_true]
    have hkey : (M + N) / 2 * 100 / 100 * 255 = r := by
      rw [hc, ← hXN, ← hXr]; ring
    rw [hkey, ← hrg, ← hrb]
  · rw [if_neg hc]
    have hNM' : N < M :=
      lt_of_le_of_ne (le_trans hNX hXM) (fun h => hc h.symm)
    have hd : (0:K) < M - N := sub_pos.mpr hNM'
    dsimp only
    simp only [hslToRgb]
    have e360 : ∀ a : K, a * 360 / 360 = a := fun a => by field_simp
    have e100 : ∀ a : K, a * 100 / 100 = a := fun a => by field_simp
    rw [e360, e100, e100]
    set S := if (M + N) / 2 > 1 / 2 then (M - N) / (2 - M - N) else (M - N) / (M + N) with hS
    have hS0 : 0 < S := by
      rw [hS]
      split_ifs with h1
      · have hN1 : N < 1 := lt_of_lt_of_le hNM' hM1
        exact div_pos (by linarith) (by linarith)
      · have hM0 : 0 < M := lt_of_le_of_lt hN0 hNM'
        exact div_pos (by linarith) (by linarith)
    rw [if_neg hS0.ne']
    have hQM : (if (M + N) / 2 < 1 / 2 then (M + N) / 2 * (1 + S)
        else (M + N) / 2 + S - (M + N) / 2 * S) = M := by
      rcases lt_trichotomy ((M + N) / 2) (1/2) with hl | hl | hl
      · rw [if_pos hl, hS, if_neg (by push_neg; linarith)]
        have hden : 0 < M + N := lt_of_le_of_lt hN0 (by linarith [hNM'])
        field_simp
        ring
      · rw [if_neg (by push_neg; linarith), hS, if_neg (by push_neg; linarith)]
        have hsum : M + N = 1 := by linarith
        rw [hsum]
        have : (M - N) / 1 = M - N := div_one _
        rw [this]
        linarith
      · rw [if_neg (by push_neg; linarith), hS, if_pos hl]
        have hN1 : N < 1 := lt_of_lt_of_le hNM' hM1
        have hden : 0 < 2 - M - N := by linarith
        field_simp
        ring
    have hPN : 2 * ((M + N) / 2) - (if (M + N) / 2 < 1 / 2 then (M + N) / 2 * (1 + S)
        else (M + N) / 2 + S - (M + N) / 2 * S) = N := by rw [hQM]; ring
    rw [hPN, hQM]
    by_cases hmx : M = X
    · by_cases hyz : Y < Z
      · -- max = r-channel, g below b
        rw [if_pos hmx, if_pos hyz]
        have hZX : Z ≤ X := by rw [← hmx]; exact hZM
        have hYX : Y ≤ X := by rw [← hmx]; exact hYM
        have hNY' : N = Y := by
          rw [hN, min_eq_left hyz.le]
          exact min_eq_right hYX
        rw [hmx, hNY'] at hd ⊢
        obtain ⟨e1, e2, e3⟩ := hue2rgb_inv_rlt X Y Z ((Y - Z) / (X - Y)) hZX hyz
          ((le_div_iff hd).mpr (by linarith))
          (div_neg_of_neg_of_pos (by linarith) hd)
          (div_mul_cancel₀ (Y - Z) hd.ne')
        rw [e1, e2, e3, hXr, hYr, hZr]
      · -- max = r-channel, g at least b
        rw [if_pos hmx, if_neg hyz, add_zero]
        have hZY : Z ≤ Y := not_lt.mp hyz
        have hZX : Z ≤ X := by rw [← hmx]; exact hZM
        have hYX : Y ≤ X := by rw [← hmx]; exact hYM
        have hNZ' : N = Z := by
          rw [hN, min_eq_right hZY]
          exact min_eq_right hZX
        rw [hmx, hNZ'] at hd ⊢
        obtain ⟨e1, e2, e3⟩ := hue2rgb_inv_rge X Y Z ((Y - Z) / (X - Z)) hYX hZY
          (div_nonneg (by linarith) hd.le)
          ((div_le_one hd).mpr (by linarith))
          (div_mul_cancel₀ (Y - Z) hd.ne')
        rw [e1, e2, e3, hXr, hYr, hZr]
    · by_cases hmy : M = Y
      · have hXltM : X < M := lt_of_le_of_ne hXM (fun h => hmx h.symm)
        have hXY : X < Y := by rw [← hmy]; exact hXltM
        have hZY : Z ≤ Y := by rw [← hmy]; exact hZM
        rcases le_or_lt X Z with hxz | hzx
        · -- max = g-channel, min = r-channel
          rw [if_neg hmx, if_pos hmy]
          have hNX' : N = X := by
            rw [hN]
            exact min_eq_left (le_min hXY.le hxz)
          rw [hmy, hNX'] at hd ⊢
          obtain ⟨e1, e2, e3⟩ := hue2rgb_inv_gge X Y Z ((Z - X) / (Y - X)) hZY hxz
            (div_nonneg (by linarith) hd.le)
            ((div_le_one hd).mpr (by linarith))
            (div_mul_cancel₀ (Z - X) hd.ne')
          rw [e1, e2, e3, hXr, hYr, hZr]
        · -- max = g-channel, min = b-channel
          rw [if_neg hmx, if_pos hmy]
          have hNZ' : N = Z := by
            rw [hN, min_eq_right hZY]
            exact min_eq_right hzx.le
          rw [hmy, hNZ'] at hd ⊢
          obtain ⟨e1, e2, e3⟩ := hue2rgb_inv_glt X Y Z ((Z - X) / (Y - Z))
            (by rw [lt_div_iff hd]; linarith)
            (div_neg_of_neg_of_pos (by linarith) hd)
            (div_mul_cancel₀ (Z - X) hd.ne')
          rw [e1, e2, e3, hXr, hYr, hZr]
      · have hmz : M = Z := by
          rcases max_choice X (max Y Z) with h | h
          · exact absurd h hmx
          · rcases max_choice Y Z with h2 | h2
            · exact absurd (h.trans h2) hmy
            · exact h.trans h2
        have hXltZ : X < Z := by
          have h' := lt_of_le_of_ne hXM (fun h => hmx h.symm)
          rwa [hmz] at h'
        have hYltZ : Y < Z := by
          have h' := lt_of_le_of_ne hYM (fun h => hmy h.symm)
          rwa [hmz] at h'
        rcases le_or_lt Y X with hyx | hxy
        · -- max = b-channel, min = g-channel
          rw [if_neg hmx, if_neg hmy]
          have hNY' : N = Y := by
            rw [hN, min_eq_left hYltZ.le]
            exact min_eq_right hyx
          rw [hmz, hNY'] at hd ⊢
          obtain ⟨e1, e2, e3⟩ := hue2rgb_inv_bge X Y Z ((X - Y) / (Z - Y))
            (div_nonneg (by linarith) hd.le)
            ((div_lt_one hd).mpr (by linarith))
            (div_mul_cancel₀ (X - Y) hd.ne')
          rw [e1, e2, e3, hXr, hYr, hZr]
        · -- max = b-channel, min = r-channel
          rw [if_neg hmx, if_neg hmy]
          have hNX' : N = X := by
            rw [hN]
            exact min_eq_left (le_min hxy.le hXltZ.le)
          rw [hmz, hNX'] at hd ⊢
          obtain ⟨e1, e2, e3⟩ := hue2rgb_inv_blt X Y Z ((X - Y) / (Z - X))
            (by rw [lt_div_iff hd]; linarith)
            (div_neg_of_neg_of_pos (by linarith) hd)
            (div_mul_cancel₀ (X - Y) hd.ne')
          rw [e1, e2, e3, hXr, hYr, hZr]

end RoundTripMain

section RangeLemmas

variable {K : Type} [LinearOrderedField K] [FloorRing K]

set_option maxHeartbeats 1000000 in
/-- rgbToHsl stays in the documented ranges: hue in [0, 360), saturation and
lightness in [0, 100]. -/
theorem rgbToHsl_range (r g b : K) (h0r : 0 ≤ r) (hr : r ≤ 255)
    (h0g : 0 ≤ g) (hg : g ≤ 255) (h0b : 0 ≤ b) (hb : b ≤ 255) :
    0 ≤ (rgbToHsl r g b).1 ∧ (rgbToHsl r g b).1 < 360 ∧
      0 ≤ (rgbToHsl r g b).2.1 ∧ (rgbToHsl r g b).2.1 ≤ 100 ∧
      0 ≤ (rgbToHsl r g b).2.2 ∧ (rgbToHsl r g b).2.2 ≤ 100 := by
  simp only [rgbToHsl]
  set X := r / 255 with hX
  set Y := g / 255 with hY
  set Z := b / 255 with hZ
  have hX0 : 0 ≤ X := div_nonneg h0r (by norm_num)
  have hY0 : 0 ≤ Y := div_nonneg h0g (by norm_num)
  have hZ0 : 0 ≤ Z := div_nonneg h0b (by norm_num)
  have hX1 : X ≤ 1 := by rw [hX, div_le_one (by norm_num : (0:K) < 255)]; exact hr
  have hY1 : Y ≤ 1 := by rw [hY, div_le_one (by norm_num : (0:K) < 255)]; exact hg
  have hZ1 : Z ≤ 1 := by rw [hZ, div_le_one (by norm_num : (0:K) < 255)]; exact hb
  set M := max X (max Y Z) with hM
  set N := min X (min Y Z) with hN
  have hXM : X ≤ M := le_max_left _ _
  have hYM : Y ≤ M := le_max_of_le_right (le_max_left _ _)
  have hZM : Z ≤ M := le_max_of_le_right (le_max_right _ _)
  have hNX : N ≤ X := min_le_left _ _
  have hNY : N ≤ Y := le_trans (min_le_right _ _) (min_le_left _ _)
  have hNZ : N ≤ Z := le_trans (min_le_right _ _) (min_le_right _ _)
  have hM1 : M ≤ 1 := max_le hX1 (max_le hY1 hZ1)
  have hN0 : 0 ≤ N := le_min hX0 (le_min hY0 hZ0)
  have hM0 : 0 ≤ M := le_trans hX0 hXM
  by_cases hc : M = N
  · rw [if_pos hc]
    refine ⟨le_refl _, by norm_num, le_refl _, by norm_num, ?_, ?_⟩
    · dsimp only
      linarith
    · dsimp only
      linarith
  · rw [if_neg hc]
    have hNM' : N < M :=
      lt_of_le_of_ne (le_trans hNX hXM) (fun h => hc h.symm)
    have hd : (0:K) < M - N := sub_pos.mpr hNM'
    have hb1 : ∀ A B : K, A ≤ M → N ≤ B → (A - B) / (M - N) ≤ 1 :=
      fun A B hA hB => (div_le_one hd).mpr (by linarith)
    have hb2 : ∀ A B : K, B ≤ M → N ≤ A → -1 ≤ (A - B) / (M - N) :=
      fun A B hB hA => (le_div_iff hd).mpr (by linarith)
    refine ⟨?_, ?_, ?_, ?_, ?_, ?_⟩
    · dsimp only
      split_ifs with h1 h2 h3
      · have := hb2 Y Z hZM hNY
        linarith
      · have := div_nonneg (sub_nonneg.mpr (not_lt.mp h2)) hd.le
        linarith
      · have := hb2 Z X hXM hNZ
        linarith
      · have := hb2 X Y hYM hNX
        linarith
    · dsimp only
      split_ifs with h1 h2 h3
      · have := div_neg_of_neg_of_pos (sub_neg.mpr h2) hd
        linarith
      · have := hb1 Y Z hYM hNZ
        linarith
      · have := hb1 Z X hZM hNX
        linarith
      · have := hb1 X Y hXM hNY
        linarith
    · dsimp only
      split_ifs with h1
      · have hden : 0 < 2 - M - N := by
          have hN1 : N < 1 := lt_of_lt_of_le hNM' hM1
          linarith
        have := div_nonneg hd.le hden.le
        linarith
      · have hden : 0 < M + N := by
          have : 0 < M := lt_of_le_of_lt hN0 hNM'
          linarith
        have := div_nonneg hd.le hden.le
        linarith
    · dsimp only
      split_ifs with h1
      · have hN1 : N < 1 := lt_of_lt_of_le hNM' hM1
        have hden : 0 < 2 - M - N := by linarith
        have := (div_le_one hden).mpr (by linarith : M - N ≤ 2 - M - N)
        linarith
      · have hden : 0 < M + N := by
          have : 0 < M := lt_of_le_of_lt hN0 hNM'
          linarith
        have := (div_le_one hden).mpr (by linarith : M - N ≤ M + N)
        linarith
    · dsimp only
      linarith
    · dsimp only
      linarith

/-- For 0 ≤ a < b, the JS normalization (a + b) % b returns a. -/
theorem jsMod_add_self (a b : K) (h0 : 0 ≤ a) (hb : 0 < b) (hab : a < b) :
    jsMod (a + b) b = a := by
  unfold jsMod jsTrunc
  have hq : 0 ≤ (a + b) / b := div_nonneg (by linarith) hb.le
  rw [if_pos hq]
  have hfloor : ⌊(a + b) / b⌋ = 1 := by
    rw [Int.floor_eq_iff]
    constructor
    · rw [le_div_iff hb]
      push_cast
      linarith
    · rw [div_lt_iff hb]
      push_cast
      linarith
  rw [hfloor]
  push_cast
  ring

/-- Storing a byte value already in 0..255 through the clamp is the identity. -/
theorem clampByte_val (n : Fin 256) : clampByte ((n.val : ℤ)) = n := by
  have h := n.isLt
  unfold clampByte
  rw [dif_neg (by omega), dif_neg (by omega)]
  exact Fin.ext (by simp)

end RangeLemmas

/-! ### Claim theorems: color conversion round trip and global no-op -/

/-- C5 counterexample: the HSL-to-RGB-to-HSL direction is broken at
(h,s,l) = (200,1,1): the almost-gray color collapses to an achromatic RGB
triple and comes back with hue 0, off by 200 (far more than 1). -/
theorem rgbToHsl_hslToRgb_fails_at_200_1_1 :
    |(rgbToHsl (((hslToRgb (200:ℚ) 1 1).1 : ℚ) : ℚ)
      ((hslToRgb (200:ℚ) 1 1).2.1 : ℚ)
      ((hslToRgb (200:ℚ) 1 1).2.2 : ℚ)).1 - 200| > 1 := by
  have h1 : hslToRgb (200:ℚ) 1 1 = (3, 3, 3) := by
    norm_num [hslToRgb, hue2rgb, jsRound]
  rw [h1]
  norm_num [rgbToHsl]

/-- C5 (amended): converting any byte RGB triple to HSL and back reproduces
it exactly (hence within the claimed ±1 per channel). -/
theorem hslToRgb_rgbToHsl_exact (r g b : ℕ) (hr : r ≤ 255) (hg : g ≤ 255)
    (hb : b ≤ 255) :
    hslToRgb (rgbToHsl (r:ℚ) (g:ℚ) (b:ℚ)).1 (rgbToHsl (r:ℚ) (g:ℚ) (b:ℚ)).2.1
      (rgbToHsl (r:ℚ) (g:ℚ) (b:ℚ)).2.2 = ((r:ℤ), (g:ℤ), (b:ℤ)) := by
  rw [hslToRgb_rgbToHsl (r:ℚ) (g:ℚ) (b:ℚ) (Nat.cast_nonneg r)
    (by exact_mod_cast hr) (Nat.cast_nonneg g) (by exact_mod_cast hg)
    (Nat.cast_nonneg b) (by exact_mod_cast hb),
    jsRound_natCast, jsRound_natCast, jsRound_natCast]

/-- Witness for the amended C5 at the concrete triple (10, 20, 30). -/
theorem hslToRgb_rgbToHsl_exact_witness :
    hslToRgb (rgbToHsl ((10:ℕ):ℚ) ((20:ℕ):ℚ) ((30:ℕ):ℚ)).1
      (rgbToHsl ((10:ℕ):ℚ) ((20:ℕ):ℚ) ((30:ℕ):ℚ)).2.1
      (rgbToHsl ((10:ℕ):ℚ) ((20:ℕ):ℚ) ((30:ℕ):ℚ)).2.2
      = (((10:ℕ):ℤ), ((20:ℕ):ℤ), ((30:ℕ):ℤ)) :=
  hslToRgb_rgbToHsl_exact 10 20 30 (by decide) (by decide) (by decide)

set_option maxHeartbeats 1000000 in
/-- C6: applying the global HSL adjustment with the image's own dominant
color as target is the identity on the buffer (exactly — so in particular
within the claimed ±1 — and alpha is untouched). -/
theorem applyHslAdjustment_dominant_noop (img : ImageData) :
    ImageProcessor.applyHslAdjustment img (ImageProcessor.getDominantColor img)
      = img := by
  obtain ⟨w, ht, data⟩ := img
  simp only [ImageProcessor.applyHslAdjustment]
  set D := ImageProcessor.getDominantColor ⟨w, ht, data⟩ with hD
  set T := rgbToHsl ((D.1 : ℚ)) ((D.2.1 : ℚ)) ((D.2.2 : ℚ)) with hT
  simp only [sub_self]
  have hsat : (if T.2.1 > 0 then T.2.1 / T.2.1 else 1) = 1 := by
    split_ifs with h
    · exact div_self h.ne'
    · rfl
  rw [hsat]
  simp only [add_zero, mul_one]
  congr 1
  apply List.map_id''
  intro px
  have hr255 : ((px.r.val : ℚ)) ≤ 255 := by
    exact_mod_cast Nat.lt_succ_iff.mp px.r.isLt
  have hg255 : ((px.g.val : ℚ)) ≤ 255 := by
    exact_mod_cast Nat.lt_succ_iff.mp px.g.isLt
  have hb255 : ((px.b.val : ℚ)) ≤ 255 := by
    exact_mod_cast Nat.lt_succ_iff.mp px.b.isLt
  obtain ⟨hh0, hh360, hs0, hs100, hl0, hl100⟩ :=
    rgbToHsl_range ((px.r.val : ℚ)) ((px.g.val : ℚ)) ((px.b.val : ℚ))
      (Nat.cast_nonneg _) hr255 (Nat.cast_nonneg _) hg255
      (Nat.cast_nonneg _) hb255
  rw [jsMod_add_self _ _ hh0 (by norm_num) hh360,
    min_eq_right hs100, max_eq_right hs0,
    min_eq_right hl100, max_eq_right hl0,
    hslToRgb_rgbToHsl ((px.r.val : ℚ)) ((px.g.val : ℚ)) ((px.b.val : ℚ))
      (Nat.cast_nonneg _) hr255 (Nat.cast_nonneg _) hg255
      (Nat.cast_nonneg _) hb255,
    jsRound_natCast, jsRound_natCast, jsRound_natCast]
  rw [clampByte_val, clampByte_val, clampByte_val]

set_option maxHeartbeats 1000000 in
/-- C9: every recoloring mode copies the alpha channel through unchanged:
the per-pixel alpha of the output equals the input's in
applyMultiRegionAdjustment, applyReplacements and applyHslAdjustment. -/
theorem alpha_preserved (img : ImageData) (regions : List ColorRegion)
    (sharpness : ℚ) (hardMask : Bool) (replacements : List ColorReplacement)
    (targetRgb : ℤ × ℤ × ℤ) :
    (MultiRegionImageProcessor.applyMultiRegionAdjustment img regions sharpness
        hardMask).data.map Pixel.a = img.data.map Pixel.a ∧
      (ColorReplacementProcessor.applyReplacements img
        replacements).data.map Pixel.a = img.data.map Pixel.a ∧
      (ImageProcessor.applyHslAdjustment img targetRgb).data.map Pixel.a
        = img.data.map Pixel.a := by
  refine ⟨?_, ?_, ?_⟩
  · simp only [MultiRegionImageProcessor.applyMultiRegionAdjustment]
    split
    · rfl
    · rw [List.map_map]
      trans (List.map (fun ipx : ℕ × Pixel => ipx.2.a) img.data.enum)
      · refine List.map_congr_left (fun ipx _ => ?_)
        dsimp only [Function.comp]
        split
        · rfl
        · split
          · rfl
          · rfl
      · rw [show (fun ipx : ℕ × Pixel => ipx.2.a) = Pixel.a ∘ Prod.snd from rfl,
          ← List.map_map, List.enum_map_snd]
  · simp only [ColorReplacementProcessor.applyReplacements]
    split
    · rfl
    · rw [List.map_map]
      refine List.map_congr_left (fun px _ => ?_)
      dsimp only [Function.comp]
      split
      · rfl
      · split
        · rfl
        · split
          · rfl
          · rfl
  · simp only [ImageProcessor.applyHslAdjustment]
    rw [List.map_map]
    exact List.map_congr_left (fun px _ => rfl)

/-- C10: the mask generators and the two recoloring compositors are pure
functions of their arguments: unlike detectColorRegions, their embeddings
take no random source, so equal inputs give equal outputs. -/
theorem recoloring_deterministic :
    (∀ img₁ img₂ region₁ region₂ all₁ all₂ (s₁ s₂ : ℚ) (hm₁ hm₂ : Bool),
      img₁ = img₂ → region₁ = region₂ → all₁ = all₂ → s₁ = s₂ → hm₁ = hm₂ →
      MultiRegionImageProcessor.generateRegionMask img₁ region₁ all₁ s₁ hm₁
        = MultiRegionImageProcessor.generateRegionMask img₂ region₂ all₂ s₂ hm₂) ∧
    (∀ img₁ img₂ regions₁ regions₂ (s₁ s₂ : ℚ) (hm₁ hm₂ : Bool),
      img₁ = img₂ → regions₁ = regions₂ → s₁ = s₂ → hm₁ = hm₂ →
      MultiRegionImageProcessor.applyMultiRegionAdjustment img₁ regions₁ s₁ hm₁
        = MultiRegionImageProcessor.applyMultiRegionAdjustment img₂ regions₂ s₂ hm₂) ∧
    (∀ img₁ img₂ (src₁ src₂ : String) (tol₁ tol₂ : ℚ),
      img₁ = img₂ → src₁ = src₂ → tol₁ = tol₂ →
      ColorReplacementProcessor.generateSelectionMask img₁ src₁ tol₁
        = ColorReplacementProcessor.generateSelectionMask img₂ src₂ tol₂) ∧
    (∀ img₁ img₂ reps₁ reps₂,
      img₁ = img₂ → reps₁ = reps₂ →
      ColorReplacementProcessor.applyReplacements img₁ reps₁
        = ColorReplacementProcessor.applyReplacements img₂ reps₂) := by
  refine ⟨?_, ?_, ?_, ?_⟩ <;> (intros; subst_vars; rfl)

/-- Witness for C10 at concrete arguments. -/
theorem recoloring_deterministic_witness :
    MultiRegionImageProcessor.generateRegionMask ⟨1, 1, [⟨1, 2, 3, 255⟩]⟩
        ⟨"region-0", "Gray", (0, 0, 0), none, 1⟩ [] (4/5) false
      = MultiRegionImageProcessor.generateRegionMask ⟨1, 1, [⟨1, 2, 3, 255⟩]⟩
        ⟨"region-0", "Gray", (0, 0, 0), none, 1⟩ [] (4/5) false ∧
    ColorReplacementProcessor.applyReplacements ⟨1, 1, [⟨1, 2, 3, 255⟩]⟩ []
      = ColorReplacementProcessor.applyReplacements ⟨1, 1, [⟨1, 2, 3, 255⟩]⟩ [] :=
  ⟨recoloring_deterministic.1 ⟨1, 1, [⟨1, 2, 3, 255⟩]⟩ ⟨1, 1, [⟨1, 2, 3, 255⟩]⟩
      ⟨"region-0", "Gray", (0, 0, 0), none, 1⟩ ⟨"region-0", "Gray", (0, 0, 0), none, 1⟩
      [] [] (4/5) (4/5) false false rfl rfl rfl rfl rfl,
    recoloring_deterministic.2.2.2 ⟨1, 1, [⟨1, 2, 3, 255⟩]⟩ ⟨1, 1, [⟨1, 2, 3, 255⟩]⟩
      [] [] rfl rfl⟩

/-! ### Claim theorems: selection-mask tolerance boundary -/

/-- C3 counterexample: at tolerance 0 a pixel that matches the source color
exactly sits at the tolerance-derived max distance (0 = 0 * 1.5), yet its
selection strength is not 0: the source computes 1 - 0/0 (NaN in JS, 1 in
the exact model with 0-valued division) and the mask entry is 1. -/
theorem selectionMask_tolerance_zero_counterexample :
    ColorReplacementProcessor.colorDistance 0 0 0 0 0 0 = ((0:ℚ) : ℝ) * 1.5 ∧
      ColorReplacementProcessor.generateSelectionMask ⟨1, 1, [⟨0, 0, 0, 255⟩]⟩
        "#000000" 0 = [1] := by
  have hdist : ColorReplacementProcessor.colorDistance 0 0 0 0 0 0 = 0 := by
    simp [ColorReplacementProcessor.colorDistance]
  constructor
  · rw [hdist]; norm_num
  · have hhex : hexToRgb "#000000" = (0, 0, 0) := by decide
    have hhsl : rgbToHsl (0:ℝ) 0 0 = (0, 0, 0) := by
      norm_num [rgbToHsl]
    simp only [ColorReplacementProcessor.generateSelectionMask, hhex, List.map]
    norm_num [hhsl, hdist, Real.one_rpow]
    decide

set_option maxHeartbeats 1000000 in
/-- C3 (amended): for a strictly positive tolerance, every selection-mask
value is nonnegative, and an opaque pixel whose color distance to the source
equals the tolerance-derived max distance gets selection strength exactly 0. -/
theorem selectionMask_boundary (img : ImageData) (sourceColorHex : String)
    (tolerance : ℚ) (htol : 0 < tolerance) :
    (∀ v ∈ ColorReplacementProcessor.generateSelectionMask img sourceColorHex
        tolerance, 0 ≤ v) ∧
      (∀ i, ∀ hi : i < img.data.length,
        128 ≤ (img.data.get ⟨i, hi⟩).a.val →
        ColorReplacementProcessor.colorDistance
            (rgbToHsl ((img.data.get ⟨i, hi⟩).r.val : ℝ)
              ((img.data.get ⟨i, hi⟩).g.val : ℝ)
              ((img.data.get ⟨i, hi⟩).b.val : ℝ)).1
            (rgbToHsl ((img.data.get ⟨i, hi⟩).r.val : ℝ)
              ((img.data.get ⟨i, hi⟩).g.val : ℝ)
              ((img.data.get ⟨i, hi⟩).b.val : ℝ)).2.1
            (rgbToHsl ((img.data.get ⟨i, hi⟩).r.val : ℝ)
              ((img.data.get ⟨i, hi⟩).g.val : ℝ)
              ((img.data.get ⟨i, hi⟩).b.val : ℝ)).2.2
            (rgbToHsl ((hexToRgb sourceColorHex).1 : ℝ)
              ((hexToRgb sourceColorHex).2.1 : ℝ)
              ((hexToRgb sourceColorHex).2.2 : ℝ)).1
            (rgbToHsl ((hexToRgb sourceColorHex).1 : ℝ)
              ((hexToRgb sourceColorHex).2.1 : ℝ)
              ((hexToRgb sourceColorHex).2.2 : ℝ)).2.1
            (rgbToHsl ((hexToRgb sourceColorHex).1 : ℝ)
              ((hexToRgb sourceColorHex).2.1 : ℝ)
              ((hexToRgb sourceColorHex).2.2 : ℝ)).2.2
          = (tolerance : ℝ) * 1.5 →
        (ColorReplacementProcessor.generateSelectionMask img sourceColorHex
          tolerance).getD i 0 = 0) := by
  have hmax : (0:ℝ) < (tolerance : ℝ) * 1.5 := by
    have : (0:ℝ) < (tolerance : ℝ) := by exact_mod_cast htol
    linarith
  constructor
  · intro v hv
    simp only [ColorReplacementProcessor.generateSelectionMask, List.mem_map] at hv
    obtain ⟨px, _, rfl⟩ := hv
    split_ifs with h1 h2
    · exact le_refl 0
    · have hnn : 0 ≤ ColorReplacementProcessor.colorDistance
          (rgbToHsl ((px.r.val : ℝ)) ((px.g.val : ℝ)) ((px.b.val : ℝ))).1
          (rgbToHsl ((px.r.val : ℝ)) ((px.g.val : ℝ)) ((px.b.val : ℝ))).2.1
          (rgbToHsl ((px.r.val : ℝ)) ((px.g.val : ℝ)) ((px.b.val : ℝ))).2.2
          (rgbToHsl ((hexToRgb sourceColorHex).1 : ℝ)
            ((hexToRgb sourceColorHex).2.1 : ℝ)
            ((hexToRgb sourceColorHex).2.2 : ℝ)).1
          (rgbToHsl ((hexToRgb sourceColorHex).1 : ℝ)
            ((hexToRgb sourceColorHex).2.1 : ℝ)
            ((hexToRgb sourceColorHex).2.2 : ℝ)).2.1
          (rgbToHsl ((hexToRgb sourceColorHex).1 : ℝ)
            ((hexToRgb sourceColorHex).2.1 : ℝ)
            ((hexToRgb sourceColorHex).2.2 : ℝ)).2.2 :=
        Real.sqrt_nonneg _
      exact Real.rpow_nonneg
        (by rw [sub_nonneg]; exact (div_le_one hmax).mpr h2) _
    · exact le_refl 0
  · intro i hi ha hd
    have hget : img.data.get ⟨i, hi⟩ = img.data[i] := rfl
    rw [hget] at ha hd
    simp only [ColorReplacementProcessor.generateSelectionMask]
    rw [List.getD_eq_getElem _ _ (by simpa using hi), List.getElem_map]
    split_ifs with h1 h2
    · omega
    · rw [hd, div_self hmax.ne', sub_self]
      exact Real.zero_rpow (by norm_num)
    · exact absurd (le_of_eq hd) h2

set_option maxHeartbeats 1000000 in
/-- Witness for the amended C3: gray pixel (153,153,153) against source
black at tolerance 40 sits exactly at distance 60 = 40 * 1.5 and gets
selection strength 0. -/
theorem selectionMask_boundary_witness :
    (ColorReplacementProcessor.generateSelectionMask
      ⟨1, 1, [⟨153, 153, 153, 255⟩]⟩ "#000000" 40).getD 0 0 = 0 := by
  have hhex : hexToRgb "#000000" = (0, 0, 0) := by decide
  have h153 : ((153 : Fin 256).val : ℝ) = (153:ℝ) := by
    norm_num [show (153 : Fin 256).val = 153 from rfl]
  have hhsl153 : rgbToHsl ((153 : Fin 256).val : ℝ) ((153 : Fin 256).val : ℝ)
      ((153 : Fin 256).val : ℝ) = (0, 0, 60) := by
    rw [h153]
    norm_num [rgbToHsl]
  have hhsl0 : rgbToHsl (0 : ℝ) 0 0 = (0, 0, 0) := by
    norm_num [rgbToHsl]
  have hsqrt : Real.sqrt 3600 = 60 := by
    rw [show (3600:ℝ) = 60 ^ 2 by norm_num]
    exact Real.sqrt_sq (by norm_num)
  refine (selectionMask_boundary ⟨1, 1, [⟨153, 153, 153, 255⟩]⟩ "#000000" 40
    (by norm_num)).2 0 (by simp) (by decide) ?_
  simp [hhex]
  rw [hhsl153, hhsl0]
  simp only [ColorReplacementProcessor.colorDistance]
  norm_num
  exact hsqrt

/-! ### Helper lemmas for the mask partition claims -/

/-- Both components of the soft-mask accumulation fold: the total weight is
the sum of all weights, and the region weight is the weight of the last
entry carrying the region id (the fold overwrites on every match). -/
theorem foldl_mask_spec (rid : String) (md dv : ℝ) (l : List (String × ℝ))
    (init : ℝ × ℝ) :
    l.foldl (fun acc c =>
        (acc.1 + Real.exp (-((c.2 - md) * (c.2 - md)) / dv),
         if c.1 = rid then Real.exp (-((c.2 - md) * (c.2 - md)) / dv)
         else acc.2)) init
      = (init.1 + (l.map (fun c =>
            Real.exp (-((c.2 - md) * (c.2 - md)) / dv))).sum,
         ((l.filter (fun c => c.1 = rid)).getLast?.map (fun c =>
            Real.exp (-((c.2 - md) * (c.2 - md)) / dv))).getD init.2) := by
  induction l generalizing init with
  | nil => simp
  | cons c cs ih =>
    rw [List.foldl_cons, ih]
    refine Prod.ext ?_ ?_
    · simp only [List.map_cons, List.sum_cons]
      ring
    · simp only [List.filter_cons]
      by_cases hc : c.1 = rid
      · rcases hfc : cs.filter (fun x => x.1 = rid) with _ | ⟨d, ds⟩
        · simp [hfc, hc]
        · rcases hgl : (d :: ds).getLast? with _ | e
          · simp at hgl
          · simp [hfc, hc, hgl]
      · simp [hc]

/-- In a region list with pairwise-distinct ids, filtering on one member's
id yields exactly that member. -/
theorem filter_id_singleton (l : List ColorRegion) (reg : ColorRegion)
    (hnd : (l.map ColorRegion.id).Nodup) (hmem : reg ∈ l) :
    l.filter (fun o => o.id = reg.id) = [reg] := by
  induction l with
  | nil => cases hmem
  | cons o os ih =>
    rw [List.map_cons, List.nodup_cons] at hnd
    rcases List.mem_cons.mp hmem with h | h
    · subst h
      rw [List.filter_cons, if_pos (by simp)]
      have : os.filter (fun o => o.id = reg.id) = [] := by
        rw [List.filter_eq_nil]
        intro a ha
        simp only [decide_eq_true_eq]
        intro he
        exact hnd.1 (he ▸ List.mem_map_of_mem ColorRegion.id ha)
      rw [this]
    · have hne : ¬ (o.id = reg.id) := by
        intro he
        exact hnd.1 (he ▸ List.mem_map_of_mem ColorRegion.id h)
      rw [List.filter_cons, if_neg (by simpa using hne)]
      exact ih hnd.2 h

/-- Dividing each list element before summing is summing then dividing. -/
theorem map_div_sum (l : List ℝ) (c : ℝ) :
    (l.map (fun x => x / c)).sum = l.sum / c := by
  induction l with
  | nil => simp
  | cons x xs ih => simp [ih, add_div]

/-- The first-strict-minimum reduce of a nonempty list returns a member. -/
theorem foldl_min_mem (d : String × ℝ) (ds : List (String × ℝ)) :
    ds.foldl (fun m c => if c.2 < m.2 then c else m) d ∈ d :: ds := by
  induction ds generalizing d with
  | nil => exact List.mem_singleton.mpr rfl
  | cons c cs ih =>
    rw [List.foldl_cons]
    have h := ih (if c.2 < d.2 then c else d)
    rcases List.mem_cons.mp h with h1 | h1
    · rw [h1]
      split_ifs
      · exact List.mem_cons_of_mem _ (List.mem_cons_self _ _)
      · exact List.mem_cons_self _ _
    · exact List.mem_cons_of_mem _ (List.mem_cons_of_mem _ h1)

/-- Dividing each mapped value before summing is summing then dividing. -/
theorem map_div_sum' {α : Type} (l : List α) (f : α → ℝ) (c : ℝ) :
    (l.map (fun x => f x / c)).sum = (l.map f).sum / c := by
  induction l with
  | nil => simp
  | cons x xs ih => simp [ih, add_div]

/-- C1 counterexample: over an empty region set the soft-mask weights of an
opaque pixel sum to 0, not 1 (there are no regions to sum over). -/
theorem softMask_empty_counterexample :
    ((([] : List ColorRegion)).map (fun reg =>
        (MultiRegionImageProcessor.generateRegionMask ⟨1, 1, [⟨0, 0, 0, 255⟩]⟩
          reg [] (4/5) false).getD 0 0)).sum = 0 ∧
      128 ≤ ((⟨0, 0, 0, 255⟩ : Pixel)).a.val := by
  constructor
  · simp
  · decide

set_option maxHeartbeats 1000000 in
/-- C1 (amended): for a nonempty region list with pairwise-distinct ids, the
soft-mask weights generateRegionMask assigns to a pixel sum to exactly 1
across the regions when the pixel's alpha is at least 128, and to 0
otherwise. -/
theorem softMask_partition_of_unity (img : ImageData)
    (allRegions : List ColorRegion) (sharpness : ℚ)
    (hne : allRegions ≠ [])
    (hnodup : (allRegions.map ColorRegion.id).Nodup)
    (i : ℕ) (hi : i < img.data.length) :
    ((allRegions.map (fun reg =>
        (MultiRegionImageProcessor.generateRegionMask img reg allRegions
          sharpness false).getD i 0)).sum)
      = if 128 ≤ (img.data.get ⟨i, hi⟩).a.val then 1 else 0 := by
  have hmask : ∀ reg : ColorRegion,
      (MultiRegionImageProcessor.generateRegionMask img reg allRegions
        sharpness false).getD i 0
      = MultiRegionImageProcessor.maskWeight reg allRegions sharpness false
          (img.data.get ⟨i, hi⟩) := by
    intro reg
    simp only [MultiRegionImageProcessor.generateRegionMask]
    rw [List.getD_eq_getElem _ _ (by simpa using hi), List.getElem_map]
    rfl
  simp only [hmask]
  generalize img.data.get ⟨i, hi⟩ = px
  by_cases ha : px.a.val < 128
  · rw [if_neg (by omega)]
    simp [MultiRegionImageProcessor.maskWeight, ha]
  · rw [if_pos (by omega)]
    simp only [MultiRegionImageProcessor.maskWeight, if_neg ha,
      Bool.false_eq_true, if_false, foldl_mask_spec, zero_add]
    set hsl := rgbToHsl ((px.r.val : ℝ)) ((px.g.val : ℝ)) ((px.b.val : ℝ)) with hhsl
    set pf := fun o : ColorRegion =>
      (o.id, MultiRegionImageProcessor.hslDistance hsl o.centroidHsl) with hpf
    set D := allRegions.map pf with hD
    set w := fun c : String × ℝ =>
      Real.exp (-((c.2 - MultiRegionImageProcessor.minDistOf D) *
        (c.2 - MultiRegionImageProcessor.minDistOf D)) /
        (50 + (1 - (sharpness : ℝ)) * 1950)) with hw
    have hDne : D ≠ [] := by
      rw [hD]
      cases allRegions
      · exact absurd rfl hne
      · simp
    have hS : 0 < (D.map w).sum := by
      refine List.sum_pos _ (fun x hx => ?_) (fun h => hDne (by simpa using h))
      obtain ⟨c, _, rfl⟩ := List.mem_map.mp hx
      exact Real.exp_pos _
    have hfilter : ∀ reg ∈ allRegions,
        D.filter (fun c => c.1 = reg.id) = [pf reg] := by
      intro reg hreg
      rw [hD, List.filter_map]
      show (allRegions.filter (fun o => o.id = reg.id)).map pf = [pf reg]
      rw [filter_id_singleton allRegions reg hnodup hreg]
      rfl
    trans (allRegions.map (fun reg => w (pf reg) / (D.map w).sum)).sum
    · refine congrArg List.sum (List.map_congr_left ?_)
      intro reg hreg
      rw [if_pos hS, hfilter reg hreg]
      simp
    · rw [map_div_sum' allRegions (fun reg => w (pf reg)) ((D.map w).sum)]
      have hnum : (allRegions.map (fun reg => w (pf reg))).sum
          = (D.map w).sum := by
        rw [hD, List.map_map]
        rfl
      rw [hnum, div_self hS.ne']

/-- Witness for the amended C1 on a one-pixel opaque buffer and two regions
with distinct ids. -/
theorem softMask_partition_of_unity_witness :
    (([⟨"region-0", "Gray", ((0:ℝ), (0:ℝ), (50:ℝ)), none, 1⟩,
       ⟨"region-1", "Dark Gray", ((0:ℝ), (0:ℝ), (10:ℝ)), none, 1⟩] :
        List ColorRegion).map
      (fun reg => (MultiRegionImageProcessor.generateRegionMask
        ⟨1, 1, [⟨0, 0, 0, 255⟩]⟩ reg
        [⟨"region-0", "Gray", ((0:ℝ), (0:ℝ), (50:ℝ)), none, 1⟩,
         ⟨"region-1", "Dark Gray", ((0:ℝ), (0:ℝ), (10:ℝ)), none, 1⟩]
        (4/5) false).getD 0 0)).sum
      = if 128 ≤ ((⟨0, 0, 0, 255⟩ : Pixel)).a.val then 1 else 0 :=
  softMask_partition_of_unity ⟨1, 1, [⟨0, 0, 0, 255⟩]⟩ _ (4/5)
    (by simp) (by simp) 0 (by simp)

/-- C2 counterexample: on a transparent pixel every hard-mask weight is 0,
so no region carries weight 1 there. -/
theorem hardMask_transparent_counterexample :
    (MultiRegionImageProcessor.generateRegionMask ⟨1, 1, [⟨0, 0, 0, 0⟩]⟩
        ⟨"region-0", "Gray", ((0:ℝ), (0:ℝ), (50:ℝ)), none, 1⟩
        [⟨"region-0", "Gray", ((0:ℝ), (0:ℝ), (50:ℝ)), none, 1⟩,
         ⟨"region-1", "Dark Gray", ((0:ℝ), (0:ℝ), (10:ℝ)), none, 1⟩]
        (4/5) true).getD 0 0 = 0 ∧
      (MultiRegionImageProcessor.generateRegionMask ⟨1, 1, [⟨0, 0, 0, 0⟩]⟩
        ⟨"region-1", "Dark Gray", ((0:ℝ), (0:ℝ), (10:ℝ)), none, 1⟩
        [⟨"region-0", "Gray", ((0:ℝ), (0:ℝ), (50:ℝ)), none, 1⟩,
         ⟨"region-1", "Dark Gray", ((0:ℝ), (0:ℝ), (10:ℝ)), none, 1⟩]
        (4/5) true).getD 0 0 = 0 := by
  constructor <;>
    simp [MultiRegionImageProcessor.generateRegionMask,
      MultiRegionImageProcessor.maskWeight]

set_option maxHeartbeats 1000000 in
/-- C2 (amended): for a nonempty region list with pairwise-distinct ids, in
hard-mask mode each pixel with alpha at least 128 gets weight exactly 1 from
exactly one region and 0 from every other; transparent pixels get 0 from
every region. -/
theorem hardMask_partition (img : ImageData) (allRegions : List ColorRegion)
    (sharpness : ℚ) (hne : allRegions ≠ [])
    (hnodup : (allRegions.map ColorRegion.id).Nodup)
    (i : ℕ) (hi : i < img.data.length) :
    (128 ≤ (img.data.get ⟨i, hi⟩).a.val →
      ∃ r₀, r₀ ∈ allRegions ∧
        (MultiRegionImageProcessor.generateRegionMask img r₀ allRegions
          sharpness true).getD i 0 = 1 ∧
        ∀ reg ∈ allRegions, reg ≠ r₀ →
          (MultiRegionImageProcessor.generateRegionMask img reg allRegions
            sharpness true).getD i 0 = 0) ∧
    ((img.data.get ⟨i, hi⟩).a.val < 128 →
      ∀ reg ∈ allRegions,
        (MultiRegionImageProcessor.generateRegionMask img reg allRegions
          sharpness true).getD i 0 = 0) := by
  have hmask : ∀ reg : ColorRegion,
      (MultiRegionImageProcessor.generateRegionMask img reg allRegions
        sharpness true).getD i 0
      = MultiRegionImageProcessor.maskWeight reg allRegions sharpness true
          (img.data.get ⟨i, hi⟩) := by
    intro reg
    simp only [MultiRegionImageProcessor.generateRegionMask]
    rw [List.getD_eq_getElem _ _ (by simpa using hi), List.getElem_map]
    rfl
  simp only [hmask]
  generalize img.data.get ⟨i, hi⟩ = px
  constructor
  · intro ha
    have ha' : ¬ (px.a.val < 128) := by omega
    simp only [MultiRegionImageProcessor.maskWeight, if_neg ha',
      eq_self_iff_true, if_true]
    set hsl := rgbToHsl ((px.r.val : ℝ)) ((px.g.val : ℝ)) ((px.b.val : ℝ)) with hhsl
    set pf := fun o : ColorRegion =>
      (o.id, MultiRegionImageProcessor.hslDistance hsl o.centroidHsl) with hpf
    set D := allRegions.map pf with hD
    have hwin : MultiRegionImageProcessor.reduceClosest D ∈ D := by
      rcases hAR : allRegions with _ | ⟨a0, rest⟩
      · exact absurd hAR hne
      · rw [hD, hAR, List.map_cons]
        exact foldl_min_mem _ _
    rw [hD] at hwin
    obtain ⟨r0, hr0, heq⟩ := List.mem_map.mp hwin
    have hwid : (MultiRegionImageProcessor.reduceClosest D).1 = r0.id := by
      rw [← heq]
    refine ⟨r0, hr0, ?_, ?_⟩
    · rw [if_pos hwid]
    · intro reg hreg hregne
      rw [if_neg ?_]
      rw [hwid]
      intro hid
      exact hregne (List.inj_on_of_nodup_map hnodup hr0 hreg hid).symm
  · intro ha
    intro reg hreg
    simp only [MultiRegionImageProcessor.maskWeight, if_pos ha]

/-- Witness for the amended C2 on a one-pixel opaque buffer and two regions
with distinct ids. -/
theorem hardMask_partition_witness :
    (128 ≤ ((⟨0, 0, 0, 255⟩ : Pixel)).a.val →
      ∃ r₀, r₀ ∈ ([⟨"region-0", "Gray", ((0:ℝ), (0:ℝ), (50:ℝ)), none, 1⟩,
          ⟨"region-1", "Dark Gray", ((0:ℝ), (0:ℝ), (10:ℝ)), none, 1⟩] :
          List ColorRegion) ∧
        (MultiRegionImageProcessor.generateRegionMask ⟨1, 1, [⟨0, 0, 0, 255⟩]⟩
          r₀ [⟨"region-0", "Gray", ((0:ℝ), (0:ℝ), (50:ℝ)), none, 1⟩,
            ⟨"region-1", "Dark Gray", ((0:ℝ), (0:ℝ), (10:ℝ)), none, 1⟩]
          (4/5) true).getD 0 0 = 1 ∧
        ∀ reg ∈ ([⟨"region-0", "Gray", ((0:ℝ), (0:ℝ), (50:ℝ)), none, 1⟩,
            ⟨"region-1", "Dark Gray", ((0:ℝ), (0:ℝ), (10:ℝ)), none, 1⟩] :
            List ColorRegion), reg ≠ r₀ →
          (MultiRegionImageProcessor.generateRegionMask ⟨1, 1, [⟨0, 0, 0, 255⟩]⟩
            reg [⟨"region-0", "Gray", ((0:ℝ), (0:ℝ), (50:ℝ)), none, 1⟩,
              ⟨"region-1", "Dark Gray", ((0:ℝ), (0:ℝ), (10:ℝ)), none, 1⟩]
            (4/5) true).getD 0 0 = 0) ∧
    (((⟨0, 0, 0, 255⟩ : Pixel)).a.val < 128 →
      ∀ reg ∈ ([⟨"region-0", "Gray", ((0:ℝ), (0:ℝ), (50:ℝ)), none, 1⟩,
          ⟨"region-1", "Dark Gray", ((0:ℝ), (0:ℝ), (10:ℝ)), none, 1⟩] :
          List ColorRegion),
        (MultiRegionImageProcessor.generateRegionMask ⟨1, 1, [⟨0, 0, 0, 255⟩]⟩
          reg [⟨"region-0", "Gray", ((0:ℝ), (0:ℝ), (50:ℝ)), none, 1⟩,
            ⟨"region-1", "Dark Gray", ((0:ℝ), (0:ℝ), (10:ℝ)), none, 1⟩]
          (4/5) true).getD 0 0 = 0) :=
  hardMask_partition ⟨1, 1, [⟨0, 0, 0, 255⟩]⟩ _ (4/5) (by simp) (by simp) 0
    (by simp)

/-! ### Helper lemmas for the region detector -/

namespace MultiRegionImageProcessor

/-- The farthest-point extension loop grows the centroid list one per pass. -/
theorem foldl_grow_length (pixels : List PixelHsl) :
    ∀ (n : ℕ) (l0 : List PixelHsl),
      ((List.range n).foldl
        (fun cents _ => cents ++ [farthestPixel pixels cents]) l0).length
        = l0.length + n := by
  intro n
  induction n with
  | zero => intro l0; simp
  | succ m ih =>
    intro l0
    rw [List.range_succ, List.foldl_append, List.foldl_cons, List.foldl_nil]
    rw [List.length_append, ih l0]
    simp [Nat.add_assoc]

/-- initializeCentroids returns k centroids when the sample is nonempty. -/
theorem initializeCentroids_length (pixels : List PixelHsl) (k : ℕ)
    (rand : ℕ → ℚ) (ctr : ℕ) (hne : pixels ≠ []) (hk : 1 ≤ k) :
    (initializeCentroids pixels k rand ctr).1.length = k := by
  simp only [initializeCentroids]
  rw [if_neg (by simpa [List.length_eq_zero] using hne)]
  rw [foldl_grow_length]
  simp
  omega

/-- recalcCentroidsGo returns one centroid per processed cluster index. -/
theorem recalcCentroidsGo_length (pixels : List PixelHsl) (assignments : List ℕ)
    (rand : ℕ → ℚ) :
    ∀ (js : List ℕ) (ctr : ℕ),
      (recalcCentroidsGo pixels assignments rand js ctr).1.length = js.length := by
  intro js
  induction js with
  | nil => intro ctr; simp [recalcCentroidsGo]
  | cons j js ih =>
    intro ctr
    simp only [recalcCentroidsGo]
    split_ifs <;> simp [ih]

/-- recalculateCentroids returns exactly k centroids. -/
theorem recalculateCentroids_length (pixels : List PixelHsl)
    (assignments : List ℕ) (k : ℕ) (rand : ℕ → ℚ) (ctr : ℕ) :
    (recalculateCentroids pixels assignments k rand ctr).1.length = k := by
  simp [recalculateCentroids, recalcCentroidsGo_length]

/-- The capped k-means iteration preserves the number of centroids. -/
theorem kmeansIterate_length (pixels : List PixelHsl) (k : ℕ) (rand : ℕ → ℚ) :
    ∀ (fuel : ℕ) (cents : List PixelHsl) (ctr : ℕ), cents.length = k →
      (kmeansIterate pixels k rand fuel cents ctr).1.length = k := by
  intro fuel
  induction fuel with
  | zero => intro cents ctr h; simpa [kmeansIterate] using h
  | succ m ih =>
    intro cents ctr h
    simp only [kmeansIterate]
    split_ifs
    · exact recalculateCentroids_length _ _ _ _ _
    · exact ih _ _ (recalculateCentroids_length _ _ _ _ _)

/-- generateRegionName reads only the h, s, l fields of its argument. -/
theorem generateRegionName_eta (c : PixelHsl) :
    generateRegionName ⟨c.h, c.s, c.l, 0⟩ = generateRegionName c := by
  simp only [generateRegionName]

end MultiRegionImageProcessor

/-- C8 counterexample: on a fully transparent buffer no pixel is sampled and
detectColorRegions returns the empty list rather than K = 2 regions. -/
theorem detectColorRegions_transparent_counterexample :
    MultiRegionImageProcessor.detectColorRegions (fun _ => 0)
        ⟨1, 1, [⟨0, 0, 0, 0⟩]⟩ 2 = [] ∧
      (MultiRegionImageProcessor.detectColorRegions (fun _ => 0)
        ⟨1, 1, [⟨0, 0, 0, 0⟩]⟩ 2).length ≠ 2 := by
  have h : MultiRegionImageProcessor.detectColorRegions (fun _ => 0)
      ⟨1, 1, [⟨0, 0, 0, 0⟩]⟩ 2 = [] := by
    simp only [MultiRegionImageProcessor.detectColorRegions]
    rw [if_pos]
    simp [MultiRegionImageProcessor.samplePixelsAsHsl]
  refine ⟨h, ?_⟩
  rw [h]
  decide

set_option maxHeartbeats 1000000 in
/-- C8 (amended): whenever at least one opaque pixel is sampled,
detectColorRegions returns exactly K regions for K in {2,3,4} (for any
behavior of the random source), each named by the saturation/lightness
bucketing of its own centroid, and the list is sorted by pixel count in
descending order.  On an empty sample it returns the empty list instead. -/
theorem detectColorRegions_structure (rand : ℕ → ℚ) (img : ImageData) (k : ℕ)
    (hk : k = 2 ∨ k = 3 ∨ k = 4)
    (hne : MultiRegionImageProcessor.samplePixelsAsHsl img ≠ []) :
    (MultiRegionImageProcessor.detectColorRegions rand img k).length = k ∧
      (∀ reg ∈ MultiRegionImageProcessor.detectColorRegions rand img k,
        reg.name = MultiRegionImageProcessor.generateRegionName
          ⟨reg.centroidHsl.1, reg.centroidHsl.2.1, reg.centroidHsl.2.2, 0⟩) ∧
      (MultiRegionImageProcessor.detectColorRegions rand img k).Pairwise
        (fun a b => b.pixelCount ≤ a.pixelCount) := by
  have hk1 : 1 ≤ k := by rcases hk with h | h | h <;> omega
  simp only [MultiRegionImageProcessor.detectColorRegions]
  rw [if_neg (by simpa [List.length_eq_zero] using hne)]
  refine ⟨?_, ?_, ?_⟩
  · rw [List.length_mergeSort, List.length_map, List.enum_length]
    exact MultiRegionImageProcessor.kmeansIterate_length _ _ _ _ _ _
      (MultiRegionImageProcessor.initializeCentroids_length _ _ _ _ hne hk1)
  · intro reg hreg
    rw [List.mem_mergeSort] at hreg
    obtain ⟨ic, _, rfl⟩ := List.mem_map.mp hreg
    exact (MultiRegionImageProcessor.generateRegionName_eta ic.2).symm
  · refine (List.sorted_mergeSort ?_ ?_ _).imp ?_
    · intro a b c h1 h2
      simp only [decide_eq_true_eq] at *
      exact le_trans h2 h1
    · intro a b
      simp only [Bool.or_eq_true, decide_eq_true_eq]
      exact Nat.le_total b.pixelCount a.pixelCount
    · intro a b h
      simpa using h

/-- Witness for the amended C8 on a one-opaque-pixel buffer with K = 2 and
the constant-zero random source. -/
theorem detectColorRegions_structure_witness :
    (MultiRegionImageProcessor.detectColorRegions (fun _ => 0)
        ⟨1, 1, [⟨0, 0, 0, 255⟩]⟩ 2).length = 2 ∧
      (∀ reg ∈ MultiRegionImageProcessor.detectColorRegions (fun _ => 0)
          ⟨1, 1, [⟨0, 0, 0, 255⟩]⟩ 2,
        reg.name = MultiRegionImageProcessor.generateRegionName
          ⟨reg.centroidHsl.1, reg.centroidHsl.2.1, reg.centroidHsl.2.2, 0⟩) ∧
      (MultiRegionImageProcessor.detectColorRegions (fun _ => 0)
        ⟨1, 1, [⟨0, 0, 0, 255⟩]⟩ 2).Pairwise
        (fun a b => b.pixelCount ≤ a.pixelCount) :=
  detectColorRegions_structure (fun _ => 0) ⟨1, 1, [⟨0, 0, 0, 255⟩]⟩ 2
    (Or.inl rfl)
    (by simp [MultiRegionImageProcessor.samplePixelsAsHsl]; decide)

/-! ### Claim theorems: dominant color, pass-through, alpha, determinism -/

/-- C4: a pixel with alpha exactly 128 is dropped by getDominantColor (the
source tests a > 128), so a buffer whose only pixel is (10,20,30,128) falls
back to mid-gray instead of averaging to (10,20,30) as the spec's
"alpha ≥ 128" rule requires. -/
theorem getDominantColor_alpha128_excluded :
    ImageProcessor.getDominantColor ⟨1, 1, [⟨10, 20, 30, 128⟩]⟩
      = (128, 128, 128) ∧ 128 ≤ (⟨10, 20, 30, 128⟩ : Pixel).a.val := by
  constructor
  · decide
  · decide

set_option maxHeartbeats 1000000 in
/-- C7: when no region carries a target color and no replacement is enabled
with a nonempty target color, both recoloring entry points return a buffer
byte-identical to the input. -/
theorem noTarget_passthrough (img : ImageData) (regions : List ColorRegion)
    (sharpness : ℚ) (hardMask : Bool) (replacements : List ColorReplacement)
    (h1 : ∀ reg ∈ regions, reg.targetColor = none)
    (h2 : ∀ rep ∈ replacements, rep.enabled = false ∨ rep.targetColor = "") :
    MultiRegionImageProcessor.applyMultiRegionAdjustment img regions sharpness
        hardMask = img ∧
      ColorReplacementProcessor.applyReplacements img replacements = img := by
  obtain ⟨w, ht, data⟩ := img
  constructor
  · unfold MultiRegionImageProcessor.applyMultiRegionAdjustment
    have hf : regions.filter (fun r => r.targetColor.isSome) = [] := by
      rw [List.filter_eq_nil]
      intro a ha
      rw [h1 a ha]
      simp
    rw [hf]
    simp
  · unfold ColorReplacementProcessor.applyReplacements
    have hf : replacements.filter
        (fun r => decide (r.enabled = true ∧ r.targetColor ≠ "")) = [] := by
      rw [List.filter_eq_nil]
      intro a ha
      rcases h2 a ha with h | h <;> simp [h]
    rw [hf]
    simp

/-- Witness for C7 on a one-pixel buffer with one untargeted region and one
disabled replacement. -/
theorem noTarget_passthrough_witness :
    MultiRegionImageProcessor.applyMultiRegionAdjustment ⟨1, 1, [⟨1, 2, 3, 255⟩]⟩
        [⟨"region-0", "Gray", (0, 0, 0), none, 1⟩] (4/5) false
        = ⟨1, 1, [⟨1, 2, 3, 255⟩]⟩ ∧
      ColorReplacementProcessor.applyReplacements ⟨1, 1, [⟨1, 2, 3, 255⟩]⟩
        [⟨"r1", "#ff0000", "#00ff00", 30, false⟩] = ⟨1, 1, [⟨1, 2, 3, 255⟩]⟩ :=
  noTarget_passthrough ⟨1, 1, [⟨1, 2, 3, 255⟩]⟩
    [⟨"region-0", "Gray", (0, 0, 0), none, 1⟩] (4/5) false
    [⟨"r1", "#ff0000", "#00ff00", 30, false⟩]
    (by intro reg h; simp at h; rw [h])
    (by intro rep h; simp at h; rw [h]; exact Or.inl rfl)
